import Mathlib

/-!
Verification development for the Canvace game engine (canvace.js as inlined in
the Ladybug game's `index.html`).  The definitions below are shallow embeddings
of the engine's data structures and operations:

* `Canvace.Buckets` (spatial bucket renderer): `BElem`, `BucketB`,
  `BucketsState`, `addKeys` (= `Element.prototype.addToBuckets`), `placeElem`,
  `forEachElementB`, `addTileB`, `removeTileB`, `replaceTileB`,
  `updatePositionE`.
* `Canvace.View.projectElement`: `projectElementV` (with JS `Math.round`
  modelled by `jsRound`).
* `Canvace.TileMap`: `CMatrix`, `putAtTM`, `rectangleCollision`, `walkableAt`,
  `neighborAt`, `octileHeuristic`.
* `Canvace.Astar` together with `Canvace.Heap`: `heapPush`, `heapPop`,
  `heapFindIdx`, `astarFindPath`.
* `Canvace.FrameTable.Animation`: `animate`.

JavaScript `Number` values are embedded as `ℚ` where the source manipulates
real-valued quantities and as `Int` where the source guarantees integers
(projected coordinates are produced by `Math.round`, bucket indices by
`Math.floor` of a division by the positive viewport extent, which is `Int`
division `/` -- Euclidean division in Lean, equal to floor division for
positive divisors).  Recursion in loops is embedded by folds over explicit
index ranges; the few genuinely recursive heap walks take a fuel argument that
strictly dominates the loop bound in every use.
-/

namespace Canvace

/-- JS `Math.round`: rounds half-up (towards +∞). -/
def jsRound (x : ℚ) : Int := ⌊x + 1/2⌋

/-- The inclusive integer range `[a, b]` (empty when `b < a`), used to embed
`for` loops running an integer variable from `a` to `b`. -/
def intRange (a b : Int) : List Int :=
  (List.range (b + 1 - a).toNat).map (fun n : Nat => a + (n : Int))

/-! ### Spatial bucket store (`Canvace.Buckets`) -/

/-- An entry of a bucket section: the data `Bucket.prototype.add` stores for
one registered element.  `p0`, `p1`, `p2` are the components of the projected
position array `p` (integers: they come out of `Math.round` in
`View.projectElement`); `width`/`height` are copied from the element
descriptor.  In the source the entry holds a shared reference to the element's
`p` array; the model snapshots the value at registration time, which is
faithful for all operations used below (none of them mutates `p` of an entry
that is inspected afterwards through the store). -/
structure BElem where
  p0 : Int
  p1 : Int
  p2 : Int
  width : Int
  height : Int
deriving DecidableEq

/-- One bucket: per-section element entries plus the running `minS`/`maxS`
section bounds (both initialized to `0` in the `Bucket` constructor).  The
source keys entries by section (`p[2]`) in a `MultiSet` per section; the model
keeps one list of `(token, element)` pairs -- the token is the unique id the
`MultiSet` assigns -- and filters by `p2` when a section is enumerated. -/
structure BucketB where
  entries : List (Nat × BElem)
  minS : Int
  maxS : Int
deriving DecidableEq

def BucketB.empty : BucketB := ⟨[], 0, 0⟩

/-- The whole `Canvace.Buckets` closure state: the bucket dictionary (keyed by
`(row, column)`), the next `MultiSet` token, the `eraser` matrix mapping tile
positions to the registration tokens their removal closure would delete, and
the viewport extents `width`/`height` captured from the `View`. -/
structure BucketsState where
  width : Int
  height : Int
  buckets : List ((Int × Int) × BucketB)
  nextTok : Nat
  eraser : List ((Int × Int × Int) × List Nat)
deriving DecidableEq

def getBucket (st : BucketsState) (key : Int × Int) : BucketB :=
  match st.buckets.find? (fun kb => kb.1 = key) with
  | some kb => kb.2
  | none => BucketB.empty

def setBucket (st : BucketsState) (key : Int × Int) (b : BucketB) : BucketsState :=
  { st with buckets := (key, b) :: st.buckets.filter (fun kb => ¬ kb.1 = key) }

/-- `Bucket.prototype.add`: append the entry to the section, extend the
`minS`/`maxS` bounds; returns the removal token. -/
def addEntryB (st : BucketsState) (key : Int × Int) (e : BElem) : BucketsState × Nat :=
  let b := getBucket st key
  (setBucket { st with nextTok := st.nextTok + 1 } key
    { entries := b.entries ++ [(st.nextTok, e)]
      minS := min b.minS e.p2
      maxS := max b.maxS e.p2 }, st.nextTok)

/-- The bucket keys `Element.prototype.addToBuckets` registers an element in:
the bucket of the stored `(bi, bj)` indices, plus the row/column/diagonal
neighbours when the box `[p0, p0+width] × [p1, p1+height]` reaches into the
next bucket row (`bi1 > bi`) or column (`bj1 > bj`). -/
def addKeys (W H bi bj p0 p1 w h : Int) : List (Int × Int) :=
  let bi1 := (p1 + h) / H
  let bj1 := (p0 + w) / W
  [(bi, bj)]
    ++ (if bi < bi1 then [(bi + 1, bj)] else [])
    ++ (if bj < bj1 then [(bi, bj + 1)] else [])
    ++ (if bi < bi1 ∧ bj < bj1 then [(bi + 1, bj + 1)] else [])

/-- The element `E`'s own registration keys when it is freshly placed: the
`Element` constructor computes `bi = ⌊p1/height⌋`, `bj = ⌊p0/width⌋` and then
calls `addToBuckets`. -/
def keysOf (W H : Int) (e : BElem) : List (Int × Int) :=
  addKeys W H (e.p1 / H) (e.p0 / W) e.p0 e.p1 e.width e.height

/-- Placing one element: `new Element(...)` followed by `addToBuckets`,
projected on the bucket store (registration tokens are dropped). -/
def placeElem (st : BucketsState) (e : BElem) : BucketsState :=
  (keysOf st.width st.height e).foldl (fun s key => (addEntryB s key e).1) st

/-- The visibility test of `yieldElement` inside
`Canvace.Buckets.forEachElement`: the element's box must intersect the
viewport rectangle `[-ox, -ox+W) × [-oy, -oy+H)` (`origin = view.getOrigin()`,
`ox = origin.x`, `oy = origin.y`). -/
def viewGuard (W H ox oy : Int) (e : BElem) : Bool :=
  decide (e.p0 < -ox + W) && decide (e.p1 < -oy + H) &&
  decide (e.p0 + e.width ≥ -ox) && decide (e.p1 + e.height ≥ -oy)

/-- `Bucket.prototype.enumerateSection`: the elements of one section, in
insertion order. -/
def enumerateSectionB (b : BucketB) (s : Int) : List BElem :=
  (b.entries.map (fun te => te.2)).filter (fun e => e.p2 = s)

/-- The four bucket keys `forEachElement` queries. -/
def queriedKeys (W H ox oy : Int) : List (Int × Int) :=
  let qi := (-oy) / H
  let qj := (-ox) / W
  [(qi, qj), (qi, qj + 1), (qi + 1, qj), (qi + 1, qj + 1)]

/-- `Canvace.Buckets.forEachElement`, as the list of elements for which the
`action` callback is invoked (in invocation order): for every section `s`
between the minimum `minS` and maximum `maxS` of the four buckets covering the
viewport corners, the elements of section `s` in each of the four buckets that
pass the `yieldElement` visibility test. -/
def forEachElementB (st : BucketsState) (ox oy : Int) : List BElem :=
  let qi := (-oy) / st.height
  let qj := (-ox) / st.width
  let b1 := getBucket st (qi, qj)
  let b2 := getBucket st (qi, qj + 1)
  let b3 := getBucket st (qi + 1, qj)
  let b4 := getBucket st (qi + 1, qj + 1)
  let minS := min (min b1.minS b2.minS) (min b3.minS b4.minS)
  let maxS := max (max b1.maxS b2.maxS) (max b3.maxS b4.maxS)
  (intRange minS maxS).flatMap (fun s =>
    (enumerateSectionB b1 s ++ enumerateSectionB b2 s ++
     enumerateSectionB b3 s ++ enumerateSectionB b4 s).filter
      (viewGuard st.width st.height ox oy))

/-- Does the closed box of `e` meet the (half-open) pixel rectangle of the
bucket cell at `(row, col)`?  This is the specification-side notion "the
element's projected bounding box overlaps the bucket" used by the claims. -/
def overlapsCell (W H : Int) (key : Int × Int) (e : BElem) : Bool :=
  decide (key.2 * W ≤ e.p0 + e.width) && decide (e.p0 < (key.2 + 1) * W) &&
  decide (key.1 * H ≤ e.p1 + e.height) && decide (e.p1 < (key.1 + 1) * H)

/-! ### View projection (`Canvace.View`) -/

/-- The 3×3 world-to-screen projection matrix (`data.matrix`). -/
structure ViewData where
  m00 : ℚ
  m01 : ℚ
  m02 : ℚ
  m10 : ℚ
  m11 : ℚ
  m12 : ℚ
  m20 : ℚ
  m21 : ℚ
  m22 : ℚ
deriving DecidableEq

/-- `Canvace.View.projectElement`: the projected, rounded screen position of an
element with offset `(offX, offY)` placed at logical coordinates
`(i, j, k)`. -/
def projectElementV (v : ViewData) (offX offY i j k : ℚ) : Int × Int × Int :=
  (jsRound (v.m00 * i + v.m01 * j + v.m02 * k + offX),
   jsRound (v.m10 * i + v.m11 * j + v.m12 * k + offY),
   jsRound (v.m20 * i + v.m21 * j + v.m22 * k))

/-! ### Element instances and tile management (`Canvace.Buckets`) -/

/-- A tile (or entity) descriptor from the static stage data (`data.tiles` /
`data.entities`): frame ids, box extents, projection offset, the `solid` and
`mutable` flags, an opaque token standing for the custom `properties` object,
and the multi-cell layout (span and reference-cell offset). -/
structure TileDef where
  frames : List Int
  width : Int
  height : Int
  offsetX : ℚ
  offsetY : ℚ
  solid : Bool
  mutable : Bool
  properties : Int
  refI : Int
  refJ : Int
  spanI : Int
  spanJ : Int
deriving DecidableEq

/-- Lookup of a descriptor by id (`data.tiles[id]` / `data.entities[id]`). -/
def tdefLookup (tiles : List (Int × TileDef)) (id : Int) : Option TileDef :=
  match tiles.find? (fun t => t.1 = id) with
  | some t => some t.2
  | none => none

/-- The state of one `Element` instance (`Canvace.Buckets.Entity`): the mock
flag (the constructor returns a `MockElement` when the descriptor has no
frames), the descriptor data it reads back, the stored projected position `p`,
the stored bucket indices `bi`/`bj`, the registration tokens accumulated in
`this.removers` and the `removed` flag. -/
structure ElementState where
  mock : Bool
  width : Int
  height : Int
  offX : ℚ
  offY : ℚ
  p0 : Int
  p1 : Int
  p2 : Int
  bi : Int
  bj : Int
  tokens : List Nat
  removed : Bool
deriving DecidableEq

/-- `Element.prototype.addToBuckets` on an element instance: registers the
element under `addKeys` of its stored `bi`/`bj`/`p` and pushes the returned
removers. -/
def addToBucketsE (st : BucketsState) (es : ElementState) : BucketsState × ElementState :=
  let keys := addKeys st.width st.height es.bi es.bj es.p0 es.p1 es.width es.height
  let r := keys.foldl (fun (acc : BucketsState × List Nat) key =>
    let (s, toks) := acc
    let (s1, tok) := addEntryB s key ⟨es.p0, es.p1, es.p2, es.width, es.height⟩
    (s1, toks ++ [tok])) (st, [])
  (r.1, { es with tokens := es.tokens ++ r.2 })

/-- The `Element` constructor: a descriptor without frames yields a
`MockElement` (no registration, all methods no-ops); otherwise the position is
projected, `bi`/`bj` are derived and the element is added to its buckets. -/
def elementNewB (v : ViewData) (st : BucketsState) (t : TileDef) (i j k : ℚ) :
    BucketsState × ElementState :=
  if t.frames.isEmpty then
    (st, ⟨true, 0, 0, 0, 0, 0, 0, 0, 0, 0, [], false⟩)
  else
    let p := projectElementV v t.offsetX t.offsetY i j k
    let es : ElementState :=
      { mock := false
        width := t.width
        height := t.height
        offX := t.offsetX
        offY := t.offsetY
        p0 := p.1
        p1 := p.2.1
        p2 := p.2.2
        bi := p.2.1 / st.height
        bj := p.1 / st.width
        tokens := []
        removed := false }
    addToBucketsE st es

/-- Deletes the listed registration tokens from every bucket (the effect of
invoking the `MultiSet` removers an element holds). -/
def removeTokensB (st : BucketsState) (toks : List Nat) : BucketsState :=
  { st with buckets := st.buckets.map (fun kb =>
      (kb.1, { kb.2 with entries := kb.2.entries.filter (fun te => ¬ te.1 ∈ toks) })) }

/-- `Element.prototype.remove`: runs every stored remover, empties the remover
list, sets `removed` and returns `true`. -/
def elementRemoveE (st : BucketsState) (es : ElementState) :
    BucketsState × ElementState × Bool :=
  if es.mock then (st, es, true)
  else (removeTokensB st es.tokens, { es with tokens := [], removed := true }, true)

/-- `Element.prototype.updatePosition`.  Note that the source computes the
candidate bucket indices `bi1`/`bj1` from the *old* stored position `this.p`
(not from the freshly projected `p1`); the embedding reproduces this
behaviour. -/
def updatePositionE (v : ViewData) (st : BucketsState) (es : ElementState)
    (i1 j1 k1 : ℚ) : BucketsState × ElementState :=
  if es.mock then (st, es)
  else if es.removed then (st, es)
  else
    let p1 := projectElementV v es.offX es.offY i1 j1 k1
    let bi1 := es.p1 / st.height
    let bj1 := es.p0 / st.width
    if ¬ p1.2.2 = es.p2 ∨ ¬ bi1 = es.bi ∨ ¬ bj1 = es.bj then
      let r := elementRemoveE st es
      let es1 := { r.2.1 with
        removed := false
        p0 := p1.1
        p1 := p1.2.1
        p2 := p1.2.2
        bi := bi1
        bj := bj1 }
      addToBucketsE r.1 es1
    else
      (st, { es with p0 := p1.1, p1 := p1.2.1, p2 := p1.2.2 })

/-- The errors thrown by the engine: the `{message: ..., id: ...}` objects
thrown on ids missing from the static data, and the JavaScript `TypeError`
raised when a method is invoked on `undefined`. -/
inductive JsError where
  | invalidId (id : Int)
  | typeError
deriving DecidableEq

/-- `Canvace.Buckets.addTile`: throws on an unknown tile id; otherwise builds
the element and, for a mutable tile, records an eraser closure over the
element's removers at `(i, j, k)` and returns `undefined` (`none`); for a
non-mutable tile it returns the bound remover (`some` of the element's
tokens). -/
def addTileB (tiles : List (Int × TileDef)) (v : ViewData) (st : BucketsState)
    (id i j k : Int) : Except (JsError × BucketsState) (Option (List Nat) × BucketsState) :=
  match tdefLookup tiles id with
  | none => .error (.invalidId id, st)
  | some tile =>
    let r := elementNewB v st tile (i : ℚ) (j : ℚ) (k : ℚ)
    if tile.mutable then
      .ok (none, { r.1 with
        eraser := ((i, j, k), r.2.tokens) :: r.1.eraser.filter (fun kv => ¬ kv.1 = (i, j, k)) })
    else
      .ok (some r.2.tokens, r.1)

/-- `Canvace.Buckets.removeTile`: invokes the eraser closure registered at
`(i, j, k)` if there is one.  The closure removes the element from every
bucket it is registered in, erases its own eraser entry and returns `true`;
the stale-closure path (`removed` already set) is unreachable through the
eraser matrix because the entry is erased on first invocation. -/
def removeTileB (st : BucketsState) (i j k : Int) : Bool × BucketsState :=
  match st.eraser.find? (fun kv => kv.1 = (i, j, k)) with
  | some kv =>
    (true, { removeTokensB st kv.2 with
      eraser := st.eraser.filter (fun e => ¬ e.1 = (i, j, k)) })
  | none => (false, st)

/-- `Canvace.Buckets.replaceTile`: when a mutable tile is registered at
`(i, j, k)`, its eraser closure is invoked (removing it) and then `addTile` is
called with the new id -- in this order, so an invalid `newTileId` throws
*after* the old tile is gone.  Without an eraser entry the call returns
`undefined` and does nothing. -/
def replaceTileB (tiles : List (Int × TileDef)) (v : ViewData) (st : BucketsState)
    (i j k newTileId : Int) :
    Except (JsError × BucketsState) (Option (List Nat) × BucketsState) :=
  match st.eraser.find? (fun kv => kv.1 = (i, j, k)) with
  | some _ =>
    let r := removeTileB st i j k
    addTileB tiles v r.2 newTileId i j k
  | none => .ok (none, st)

/-- The bucket keys in which a given element instance is currently registered
(the buckets holding one of its tokens). -/
def registeredKeys (st : BucketsState) (es : ElementState) : List (Int × Int) :=
  (st.buckets.filter (fun kb => kb.2.entries.any (fun te => te.1 ∈ es.tokens))).map
    (fun kb => kb.1)

/-- The bucket cells geometrically overlapped by an element instance's current
box (specification-side, used to state the re-bucketing claims). -/
def overlappedKeysE (W H : Int) (es : ElementState) : List (Int × Int) :=
  (intRange (es.p1 / H) ((es.p1 + es.height) / H)).flatMap (fun r =>
    (intRange (es.p0 / W) ((es.p0 + es.width) / W)).map (fun c => (r, c)))

/-! ### Tile map (`Canvace.TileMap` over `Canvace.Matrix`) -/

/-- A value stored in a map cell: either a tile id (a JS number: a single-cell
tile or the reference cell of a multi-cell tile) or a back-reference string
holding the coordinates of the reference cell. -/
inductive Cell where
  | tile (id : Int)
  | ref (i j : Int)
deriving DecidableEq

/-- `Canvace.Matrix`: the sparse 3D cell store plus the layer presence set.
`put` records the layer; `erase` deletes the cell but never un-records a
layer, exactly as in the source. -/
structure CMatrix where
  data : List ((Int × Int × Int) × Cell)
  layers : List Int
deriving DecidableEq

def mget (m : CMatrix) (i j k : Int) : Option Cell :=
  match m.data.find? (fun kv => kv.1 = (i, j, k)) with
  | some kv => some kv.2
  | none => none

def mput (m : CMatrix) (i j k : Int) (v : Cell) : CMatrix :=
  { data := ((i, j, k), v) :: m.data.filter (fun kv => ¬ kv.1 = (i, j, k))
    layers := k :: m.layers.filter (fun l => ¬ l = k) }

def merase (m : CMatrix) (i j k : Int) : CMatrix :=
  { m with data := m.data.filter (fun kv => ¬ kv.1 = (i, j, k)) }

def mhasLayer (m : CMatrix) (k : Int) : Bool := m.layers.contains k

/-- The solidity probe of `rectangleCollision`: an absent cell is not solid; a
back-reference is followed to its reference cell; the optional caller-supplied
`collides(solid, properties)` predicate overrides the `solid` flag.  The
branches that would make the JavaScript fault on malformed data (a dangling
back-reference or an id missing from `data.tiles`) yield `false`. -/
def solidTileAt (m : CMatrix) (tiles : List (Int × TileDef))
    (collides : Option (Bool → Int → Bool)) (k i j : Int) : Bool :=
  let judge : Int → Bool := fun id =>
    match tdefLookup tiles id with
    | some t =>
      match collides with
      | none => t.solid
      | some f => f t.solid t.properties
    | none => false
  match mget m i j k with
  | none => false
  | some (.tile id) => judge id
  | some (.ref ri rj) =>
    match mget m ri rj k with
    | some (.tile id) => judge id
    | _ => false

/-- The result vector of `rectangleCollision`. -/
structure CVec where
  i : ℚ
  j : ℚ
deriving DecidableEq

/-- `Canvace.TileMap.rectangleCollision`: scans the four boundary rows/columns
of the integer cells covered by `[i, i+di) × [j, j+dj)`, producing at most one
candidate correction per side (`viu`/`vio` along I, `vju`/`vjo` along J);
opposite-side candidates on one axis cancel to `0`; finally any correction
whose magnitude exceeds the actual per-axis displacement `Di`/`Dj` plus the
`0.001` tolerance is discarded. -/
def rectangleCollision (m : CMatrix) (tiles : List (Int × TileDef)) (k : Int)
    (i j di dj Di Dj : ℚ) (collides : Option (Bool → Int → Bool)) : CVec :=
  let solid : Int → Int → Bool := fun a b => solidTileAt m tiles collides k a b
  let i0 : Int := ⌊i⌋
  let j0 : Int := ⌊j⌋
  let i1 : Int := ⌈i + di⌉ - 1
  let j1 : Int := ⌈j + dj⌉ - 1
  let v4 : ℚ × ℚ × ℚ × ℚ :=
    if mhasLayer m k then
      let vi := (intRange j0 j1).foldl (fun (v : ℚ × ℚ) j2 =>
        let viu := if solid i0 j2 && (decide (i0 = i1) || !solid (i0 + 1) j2)
          then (i0 : ℚ) + 1 - i else v.1
        let vio := if solid i1 j2 && (decide (i0 = i1) || !solid (i1 - 1) j2)
          then (i1 : ℚ) - i - di else v.2
        (viu, vio)) (0, 0)
      let vj := (intRange i0 i1).foldl (fun (v : ℚ × ℚ) i2 =>
        let vju := if solid i2 j0 && (decide (j0 = j1) || !solid i2 (j0 + 1))
          then (j0 : ℚ) + 1 - j else v.1
        let vjo := if solid i2 j1 && (decide (j0 = j1) || !solid i2 (j1 - 1))
          then (j1 : ℚ) - j - dj else v.2
        (vju, vjo)) (0, 0)
      (vi.1, vi.2, vj.1, vj.2)
    else (0, 0, 0, 0)
  let viu := v4.1
  let vio := v4.2.1
  let vju := v4.2.2.1
  let vjo := v4.2.2.2
  let vi : ℚ := if ¬ viu = 0 ∧ ¬ vio = 0 then 0 else if ¬ viu = 0 then viu else vio
  let vj : ℚ := if ¬ vju = 0 ∧ ¬ vjo = 0 then 0 else if ¬ vju = 0 then vju else vjo
  let vi := if |vi| > |Di| + 1/1000 then 0 else vi
  let vj := if |vj| > |Dj| + 1/1000 then 0 else vj
  ⟨vi, vj⟩

/-- The footprint cells of a tile whose reference cell is placed at `(i, j)`:
`i1` from `i - ref.i` for `span.i` cells, `j1` likewise, in the loop order of
`putAt`. -/
def footprint (t : TileDef) (i j : Int) : List (Int × Int) :=
  (intRange (i - t.refI) (i - t.refI + t.spanI - 1)).flatMap (fun i1 =>
    (intRange (j - t.refJ) (j - t.refJ + t.spanJ - 1)).map (fun j1 => (i1, j1)))

/-- The `canClear` helper of `putAt`: reads the cell, follows a back-reference
and returns the target tile's `mutable` flag.  An *empty* cell makes the
source call `undefined.split` -- a `TypeError` -- and so does a dangling
reference or an unknown id (`data.tiles[undefined].mutable`). -/
def canClearCell (m : CMatrix) (tiles : List (Int × TileDef)) (k i j : Int) :
    Except JsError Bool :=
  let judge : Int → Except JsError Bool := fun id =>
    match tdefLookup tiles id with
    | some t => .ok t.mutable
    | none => .error .typeError
  match mget m i j k with
  | none => .error .typeError
  | some (.tile id) => judge id
  | some (.ref ri rj) =>
    match mget m ri rj k with
    | some (.tile id) => judge id
    | some (.ref _ _) => .error .typeError
    | none => .error .typeError

/-- The check phase of `putAt`: scan the footprint in loop order; propagate the
first error; report `false` as soon as a covered cell cannot be cleared. -/
def checkCells (m : CMatrix) (tiles : List (Int × TileDef)) (k : Int) :
    List (Int × Int) → Except JsError Bool
  | [] => .ok true
  | c :: cs =>
    match canClearCell m tiles k c.1 c.2 with
    | .error e => .error e
    | .ok false => .ok false
    | .ok true => checkCells m tiles k cs

/-- The `clear` helper of `putAt`: follow a back-reference to the reference
cell, invoke `buckets.removeTile` there and, on success, erase the matrix
cell.  An empty cell again faults in the source (`value.split`). -/
def clearCell (m : CMatrix) (st : BucketsState) (k i j : Int) :
    Except JsError (Bool × CMatrix × BucketsState) :=
  match mget m i j k with
  | none => .error .typeError
  | some v =>
    let c : Int × Int := match v with
      | .tile _ => (i, j)
      | .ref ri rj => (ri, rj)
    let r := removeTileB st c.1 c.2 k
    if r.1 then .ok (true, merase m c.1 c.2 k, r.2)
    else .ok (false, m, r.2)

/-- The commit phase of `putAt`: clear every footprint cell in loop order and
write the back-reference to `(i, j)`; a failing `clear` aborts with `false`,
keeping whatever has been written so far. -/
def commitCells (tiles : List (Int × TileDef)) (i j k : Int) :
    List (Int × Int) → CMatrix → BucketsState →
    Except (JsError × CMatrix × BucketsState) (Bool × CMatrix × BucketsState)
  | [], m, st => .ok (true, m, st)
  | c :: cs, m, st =>
    match clearCell m st k c.1 c.2 with
    | .error e => .error (e, m, st)
    | .ok (false, m1, st1) => .ok (false, m1, st1)
    | .ok (true, m1, st1) =>
      commitCells tiles i j k cs (mput m1 c.1 c.2 k (.ref i j)) st1

/-- `Canvace.TileMap.putAt`: throws on an unknown id; otherwise checks that
every footprint cell can be cleared (first phase, no mutation), then clears
and rewrites them (second phase), finally writes the id at the reference cell
and adds the tile to the buckets. -/
def putAtTM (tiles : List (Int × TileDef)) (v : ViewData) (m : CMatrix)
    (st : BucketsState) (i j k id : Int) :
    Except (JsError × CMatrix × BucketsState) (Bool × CMatrix × BucketsState) :=
  match tdefLookup tiles id with
  | none => .error (.invalidId id, m, st)
  | some tile =>
    match checkCells m tiles k (footprint tile i j) with
    | .error e => .error (e, m, st)
    | .ok false => .ok (false, m, st)
    | .ok true =>
      match commitCells tiles i j k (footprint tile i j) m st with
      | .error e => .error e
      | .ok (false, m1, st1) => .ok (false, m1, st1)
      | .ok (true, m1, st1) =>
        let m2 := mput m1 i j k (.tile id)
        match addTileB tiles v st1 id i j k with
        | .error e => .error (e.1, m2, e.2)
        | .ok r => .ok (true, m2, r.2)

/-! ### Pathfinding graph view (`Canvace.TileMap.getGraphNode`) -/

/-- The `walkable` helper of `getGraphNode`: a cell is walkable when it holds a
(possibly referenced) non-solid tile; absent cells are not walkable.  As
above, branches on which the JavaScript would fault yield `false`. -/
def walkableAt (m : CMatrix) (tiles : List (Int × TileDef)) (k i j : Int) : Bool :=
  let judge : Int → Bool := fun id =>
    match tdefLookup tiles id with
    | some t => !t.solid
    | none => false
  match mget m i j k with
  | none => false
  | some (.tile id) => judge id
  | some (.ref ri rj) =>
    match mget m ri rj k with
    | some (.tile id) => judge id
    | _ => false

/-- The I offsets of the nine neighbourhood indices of `getGraphNode`. -/
def diOff : List Int := [-1, -1, -1, 0, 0, 0, 1, 1, 1]

/-- The J offsets of the nine neighbourhood indices of `getGraphNode`. -/
def djOff : List Int := [-1, 0, 1, -1, 0, 1, -1, 0, 1]

/-- The `neighbors` map of the graph node at `(i, j)` on layer `k`, as the
partial map from edge labels (the loop index) to the neighbour's coordinates:
the entry is present when the target cell is walkable and -- for the even,
diagonal indices -- both orthogonally adjacent cells are walkable too. -/
def neighborAt (m : CMatrix) (tiles : List (Int × TileDef)) (k i j : Int)
    (idx : Nat) : Option (Int × Int) :=
  let dI := diOff.getD idx 0
  let dJ := djOff.getD idx 0
  if idx < 9 ∧ ¬ (dI = 0 ∧ dJ = 0) ∧
      walkableAt m tiles k (i + dI) (j + dJ) = true ∧
      (idx % 2 = 1 ∨ (walkableAt m tiles k i (j + dJ) = true ∧
                      walkableAt m tiles k (i + dI) j = true)) then
    some (i + dI, j + dJ)
  else
    none

/-- Numbers of the form `a + b·√2`, with exact rational coefficients: the
value domain of the graph node heuristic and edge weights (the source computes
them as floating point `Math.sqrt` expressions). -/
structure Q2 where
  a : ℚ
  b : ℚ
deriving DecidableEq

/-- The `distance` function every node of `getGraphNode` carries: `1` for odd
(orthogonal) edge labels and `√2` for even (diagonal) ones. -/
def gdistance (idx : Nat) : Q2 :=
  if idx % 2 = 1 then ⟨1, 0⟩ else ⟨0, 1⟩

/-- The heuristic of the node at `(i, j)` towards the target `(i1, j1)`: with
`di = |i1 - i|`, `dj = |j1 - j|` the source computes
`√(min(di,dj)² · 2) + max(di,dj) - min(di,dj)`, i.e. the octile distance
`min·√2 + (max - min)`, represented exactly. -/
def octileHeuristic (i j i1 j1 : Int) : Q2 :=
  let di := |i1 - i|
  let dj := |j1 - j|
  ⟨((max di dj - min di dj : Int) : ℚ), ((min di dj : Int) : ℚ)⟩

/-! ### Binary heap (`Canvace.Heap`) and A* (`Canvace.Astar`)

The heap is generic in the source; the embedding instantiates it at the node
ids (`Nat`) handed over by the A* driver, with the ordering (`compare < 0`)
passed in as `lt` and the identity predicate as `same`.  The recursive walks
take a fuel argument; every use below passes fuel that strictly dominates the
walk's depth, so the fuel-exhaustion branches are never taken. -/

/-- Swap two positions of the heap array. -/
def swapL (hp : List Nat) (i j : Nat) : List Nat :=
  (hp.set i (hp.getD j 0)).set j (hp.getD i 0)

/-- The sift-up loop shared by `Heap.push` and `Heap.decreaseKey`: while the
element at `index` is smaller than its parent, swap them. -/
def siftUpF (lt : Nat → Nat → Bool) : Nat → List Nat → Nat → List Nat
  | 0, hp, _ => hp
  | fuel + 1, hp, index =>
    if index = 0 then hp
    else
      let pIdx := (index - 1) / 2
      if lt (hp.getD index 0) (hp.getD pIdx 0) then
        siftUpF lt fuel (swapL hp index pIdx) pIdx
      else hp

/-- `Heap.push`. -/
def heapPush (lt : Nat → Nat → Bool) (hp : List Nat) (x : Nat) : List Nat :=
  siftUpF lt (hp.length + 1) (hp ++ [x]) hp.length

/-- The `heapify` sift-down of `Heap.pop`. -/
def heapifyF (lt : Nat → Nat → Bool) : Nat → List Nat → Nat → List Nat
  | 0, hp, _ => hp
  | fuel + 1, hp, i =>
    let l := 2 * i + 1
    let r := 2 * i + 2
    let m1 := if l < hp.length && lt (hp.getD l 0) (hp.getD i 0) then l else i
    let m2 := if r < hp.length && lt (hp.getD r 0) (hp.getD m1 0) then r else m1
    if m2 > i then heapifyF lt fuel (swapL hp i m2) m2 else hp

/-- `Heap.pop`: extract the root, move the last array element to the root and
sift it down. -/
def heapPop (lt : Nat → Nat → Bool) (hp : List Nat) : Option Nat × List Nat :=
  match hp.head? with
  | none => (none, hp)
  | some result =>
    let last := hp.getLastD 0
    let hp1 := hp.dropLast
    if hp1.isEmpty then (some result, hp1)
    else (some result, heapifyF lt (hp1.length + 1) (hp1.set 0 last) 0)

/-- The pruned search of `Heap.find`: stop at a `same` hit, prune subtrees
whose root already compares larger than the target, otherwise descend left
then right. -/
def heapFindIdx (lt same : Nat → Nat → Bool) : Nat → List Nat → Nat → Nat → Option Nat
  | 0, _, _, _ => none
  | fuel + 1, hp, x, index =>
    if index < hp.length then
      if same x (hp.getD index 0) then some index
      else if lt x (hp.getD index 0) then none
      else
        match heapFindIdx lt same fuel hp x (2 * index + 1) with
        | some i => some i
        | none => heapFindIdx lt same fuel hp x (2 * index + 2)
    else none

/-- A directed graph in the duck-typed `Astar.Node` interface: per-node
heuristic, labelled neighbour list (the lazily evaluated `neighbors` map, in
enumeration order) and labelled edge weights.  Nodes are identified with their
ids (`Nat`), which is faithful because the driver inspects nodes only through
`id`, `heuristic`, `neighbors` and `distance`, all functions of the id for a
well-formed node constructor. -/
structure AGraph where
  h : Nat → ℚ
  nbrs : Nat → List (Nat × Nat)
  dist : Nat → Nat → ℚ

/-- `openScore[id]`, with the junk default `0` on the branches where the
source would read `undefined` (never hit for heap members). -/
def scoreD (os : List (Nat × ℚ)) (n : Nat) : ℚ :=
  match os.find? (fun e => e.1 = n) with
  | some e => e.2
  | none => 0

/-- The comparator closure `findPath` hands to the heap, reading the *current*
`openScore`: `f(u) = openScore[u] + heuristic(u)·(1+ε)`, and `compare < 0`. -/
def ltOS (g : AGraph) (eps : ℚ) (os : List (Nat × ℚ)) (u v : Nat) : Bool :=
  decide (scoreD os u + g.h u * (1 + eps) < scoreD os v + g.h v * (1 + eps))

/-- Path reconstruction: follow the back-links from the goal, collecting edge
labels (the result is reversed by the caller). -/
def walkBack (bl : List (Nat × Nat × Nat)) : Nat → Nat → List Nat
  | 0, _ => []
  | fuel + 1, node =>
    match bl.find? (fun e => e.1 = node) with
    | some e => e.2.2 :: walkBack bl fuel e.2.1
    | none => []

/-- The body of one neighbour-relaxation step of the main loop (the `for`
over `currentNode.neighbors`): skip closed nodes; relax an open node through
`decreaseKey` when the new cost is smaller; open an unseen node. -/
def relaxStep (g : AGraph) (eps : ℚ) (closed : List Nat) (cur : Nat) (score : ℚ)
    (acc : List (Nat × ℚ) × List (Nat × Nat × Nat) × List Nat) (edge : Nat × Nat) :
    List (Nat × ℚ) × List (Nat × Nat × Nat) × List Nat :=
  let (os, bl, hp) := acc
  let (lbl, node) := edge
  if node ∈ closed then acc
  else
    let cost := score + g.dist cur lbl
    match os.find? (fun e => e.1 = node) with
    | some old =>
      if cost < old.2 then
        match heapFindIdx (ltOS g eps os) (fun a b => a == b) (hp.length + 1) hp node 0 with
        | some idx =>
          let os1 := (node, cost) :: os.filter (fun e => ¬ e.1 = node)
          let bl1 := (node, cur, lbl) :: bl.filter (fun e => ¬ e.1 = node)
          (os1, bl1, siftUpF (ltOS g eps os1) (idx + 1) hp idx)
        | none => acc
      else acc
    | none =>
      let os1 := (node, cost) :: os
      let bl1 := (node, cur, lbl) :: bl.filter (fun e => ¬ e.1 = node)
      (os1, bl1, heapPush (ltOS g eps os1) hp node)

/-- The main loop of `Canvace.Astar.findPath`: pop the best open node; if its
heuristic is non-zero close it and relax its neighbours, otherwise reconstruct
and return the path; an emptied heap yields `none` (no path). -/
def astarLoop (g : AGraph) (eps : ℚ) : Nat → List Nat → List (Nat × ℚ) →
    List (Nat × Nat × Nat) → List Nat → Option (List Nat)
  | 0, _, _, _, _ => none
  | fuel + 1, closed, os, bl, hp =>
    if hp.isEmpty then none
    else
      let p := heapPop (ltOS g eps os) hp
      match p.1 with
      | none => none
      | some cur =>
        let score := scoreD os cur
        let os1 := os.filter (fun e => ¬ e.1 = cur)
        if ¬ g.h cur = 0 then
          let closed1 := cur :: closed
          let r := (g.nbrs cur).foldl (relaxStep g eps closed1 cur score) (os1, bl, p.2)
          astarLoop g eps fuel closed1 r.1 r.2.1 r.2.2
        else
          some ((walkBack bl (bl.length + 1) cur).reverse)

/-- `Canvace.Astar.findPath` on `startNode`: seed `openScore[start] = 0`, push
the start node and run the loop. -/
def astarFindPath (g : AGraph) (eps : ℚ) (fuel : Nat) (start : Nat) : Option (List Nat) :=
  astarLoop g eps fuel [] [(start, 0)] [] (heapPush (ltOS g eps [(start, 0)]) [] start)

/-- The cost of following a label path from `start` through the graph's
`neighbors`/`distance` maps. -/
def pathCost (g : AGraph) (start : Nat) (path : List Nat) : ℚ :=
  (path.foldl (fun (acc : ℚ × Nat) lbl =>
    (acc.1 + g.dist acc.2 lbl,
     match (g.nbrs acc.2).find? (fun e => e.1 = lbl) with
     | some e => e.2
     | none => acc.2)) (0, start)).1

/-! ### Animation resolver (`Canvace.FrameTable.Animation`)

The looping case (the subject of the animation claims): every frame of the
sequence declares a (positive, millisecond) duration.  A frame is a pair
`(image id, duration)`. -/

/-- The running gcd of the frame durations (`partialUnit` in the source,
seeded with `0`; the JS `gcd` is the Euclidean algorithm on naturals). -/
def durGcd (frames : List (Int × Nat)) : Nat :=
  frames.foldl (fun g f => Nat.gcd g f.2) 0

/-- The total loop duration (`fullDuration`). -/
def fullDur (frames : List (Int × Nat)) : Nat :=
  frames.foldl (fun s f => s + f.2) 0

/-- The lookup table built by the `synchronize` closure for a given sampling
`unit`: one entry per `unit` step of one full loop, advancing the frame index
whenever the in-frame time exceeds the frame's duration. -/
def buildTable (frames : List (Int × Nat)) (unit T : Nat) : List (Nat × Int) :=
  ((List.range ((T + unit - 1) / unit)).foldl
    (fun (acc : Nat × Nat × List (Nat × Int)) step =>
      let (fi0, ft0, tbl) := acc
      let fi := if ft0 > (frames.getD fi0 (0, 0)).2 then fi0 + 1 else fi0
      let ft := if ft0 > (frames.getD fi0 (0, 0)).2 then 0 else ft0
      (fi, ft + unit, tbl ++ [(step * unit, (frames.getD fi (0, 0)).1)]))
    (0, 0, [])).2.2

/-- JS `%` on non-negative numbers: `t - T·⌊t/T⌋`. -/
def jsMod (t T : ℚ) : ℚ := t - T * ⌊t / T⌋

/-- The animation function for a looping frame sequence after
`synchronize(period)`: a single-frame sequence is constant; otherwise the
sampling unit is `gcd(gcd of durations, period)` and the frame is the table
entry at `⌊(t mod T) / unit⌋ · unit`.  (Construction time corresponds to
`period = gcd of durations`, for which the unit is unchanged.)  A missing
table key would be JS `undefined`; the embedding returns `0` on that
unreachable branch. -/
def animate (frames : List (Int × Nat)) (period : Nat) (t : ℚ) : Int :=
  if frames.length < 2 then (frames.getD 0 (0, 0)).1
  else
    let T := fullDur frames
    let unit := Nat.gcd (durGcd frames) period
    let tbl := buildTable frames unit T
    let key : Int := ⌊jsMod t (T : ℚ) / (unit : ℚ)⌋ * (unit : Int)
    match tbl.find? (fun e => (e.1 : Int) = key) with
    | some e => e.2
    | none => 0

/-- Decidable equality for `Except` results (by cases on the two values). -/
instance instDecEqExcept {ε α : Type} [DecidableEq ε] [DecidableEq α] :
    DecidableEq (Except ε α) := fun a b =>
  match a, b with
  | .ok x, .ok y =>
    if h : x = y then .isTrue (congrArg Except.ok h)
    else .isFalse (fun hc => h (Except.ok.inj hc))
  | .error x, .error y =>
    if h : x = y then .isTrue (congrArg Except.error h)
    else .isFalse (fun hc => h (Except.error.inj hc))
  | .ok _, .error _ => .isFalse (fun hc => Except.noConfusion hc)
  | .error _, .ok _ => .isFalse (fun hc => Except.noConfusion hc)

/-! ### Concrete instances used by the counterexamples and failing inputs -/

/-- A fresh bucket store for a `W × H` viewport. -/
def emptyBuckets (W H : Int) : BucketsState := ⟨W, H, [], 0, []⟩

/-- The elements registered at a bucket key (projection of the entries). -/
def elemsAt (st : BucketsState) (key : Int × Int) : List BElem :=
  ((getBucket st key).entries).map (fun te => te.2)

/-- An identity projection matrix (logical coordinates map to pixels 1:1). -/
def idView : ViewData := ⟨1, 0, 0, 0, 1, 0, 0, 0, 1⟩

/-- An element three viewport-widths wide, overhanging into the viewport. -/
def bigElem : BElem := ⟨-250, 0, 0, 300, 10⟩

/-- An element two viewport-widths wide, overhanging into the viewport. -/
def wideElem : BElem := ⟨-150, 0, 0, 200, 10⟩

/-- A small element inside the viewport. -/
def smallElem : BElem := ⟨10, 20, 0, 10, 10⟩

/-- An entity descriptor: one frame, a 10×10 box, no offset. -/
def walkerDef : TileDef := ⟨[5], 10, 10, 0, 0, false, false, 0, 0, 0, 1, 1⟩

/-- An entity placed at `(10, 20, 0)` under the identity projection in a
100×100 viewport. -/
def c2Run0 : BucketsState × ElementState :=
  elementNewB idView (emptyBuckets 100 100) walkerDef 10 20 0

/-- The same entity repositioned to `(150, 20, 0)` -- across the bucket-column
boundary at pixel 100. -/
def c2Run1 : BucketsState × ElementState :=
  updatePositionE idView c2Run0.1 c2Run0.2 150 20 0

/-- A single solid tile at cell `(0, 0)` of layer `0`. -/
def c3Map : CMatrix := ⟨[((0, 0, 0), Cell.tile 1)], [0]⟩

/-- The tile table for the collision counterexample: tile `1` is solid. -/
def c3Tiles : List (Int × TileDef) :=
  [(1, ⟨[7], 0, 0, 0, 0, true, false, 0, 0, 0, 1, 1⟩)]

/-- A mutable 1×2 tile (spans two J cells, reference cell at offset 0). -/
def wideTile : TileDef := ⟨[5], 10, 10, 0, 0, false, true, 0, 0, 0, 1, 2⟩

/-- A non-mutable single-cell tile. -/
def fixedTile : TileDef := ⟨[6], 10, 10, 0, 0, false, false, 0, 0, 0, 1, 1⟩

/-- A map whose only occupied cell is `(0, 1, 0)`, holding the non-mutable
tile `9`; cell `(0, 0, 0)` is empty. -/
def c4Map : CMatrix := ⟨[((0, 1, 0), Cell.tile 9)], [0]⟩

/-- Tile table for the `putAt` failing input. -/
def c4Tiles : List (Int × TileDef) := [(7, wideTile), (9, fixedTile)]

/-- The four-node graph `S=0, A=1, B=2, G=3` with edges `S→A` (cost 2,
label 0), `S→B` (cost 1, label 1), `B→A` (cost ½, label 0), `A→G` (cost 1,
label 0); heuristics `h(S)=2, h(A)=1/10, h(B)=7/5, h(G)=0` -- admissible
(each is at most the true remaining distance) and zero exactly at the goal,
but not consistent across `B→A`. -/
def cexG : AGraph :=
  { h := fun n => if n = 0 then 2 else if n = 1 then 1/10 else if n = 2 then 7/5 else 0
    nbrs := fun n =>
      if n = 0 then [(0, 1), (1, 2)]
      else if n = 1 then [(0, 3)]
      else if n = 2 then [(0, 1)]
      else []
    dist := fun n lbl =>
      if n = 0 then (if lbl = 0 then 2 else 1)
      else if n = 1 then 1
      else if n = 2 then 1/2
      else 0 }

/-- A mutable single-cell tile with one frame. -/
def mutTile : TileDef := ⟨[5], 10, 10, 0, 0, false, true, 0, 0, 0, 1, 1⟩

/-- Static data containing only the mutable tile `1`. -/
def mutTiles : List (Int × TileDef) := [(1, mutTile)]

/-- Static data containing tile `1` as a *non-mutable* tile. -/
def fixTiles : List (Int × TileDef) := [(1, { mutTile with mutable := false })]

/-- The bucket store after `addTile(1, 0, 0, 0)` of the mutable tile. -/
def st6 : BucketsState :=
  match addTileB mutTiles idView (emptyBuckets 100 100) 1 0 0 0 with
  | .ok r => r.2
  | .error e => e.2

/-- The bucket store left behind by `replaceTile(0, 0, 0, 99)` on `st6`
(`99` is not a valid tile id). -/
def stAfter6 : BucketsState :=
  match replaceTileB mutTiles idView st6 0 0 0 99 with
  | .ok r => r.2
  | .error e => e.2

/-- The remover returned by `addTile(1, 0, 0, 0)` when tile `1` is
non-mutable. -/
def fixRemover : Option (List Nat) :=
  match addTileB fixTiles idView (emptyBuckets 100 100) 1 0 0 0 with
  | .ok r => r.1
  | .error _ => none

/-- A 2×2 patch of layer 0: walkable tiles except a solid one at `(1, 0)`. -/
def c8Map : CMatrix :=
  ⟨[((0, 0, 0), Cell.tile 1), ((0, 1, 0), Cell.tile 1),
    ((1, 0, 0), Cell.tile 2), ((1, 1, 0), Cell.tile 1)], [0]⟩

/-- Tile table for the graph-node witness: tile `1` walkable, tile `2`
solid. -/
def c8Tiles : List (Int × TileDef) :=
  [(1, ⟨[7], 0, 0, 0, 0, false, false, 0, 0, 0, 1, 1⟩),
   (2, ⟨[8], 0, 0, 0, 0, true, false, 0, 0, 0, 1, 1⟩)]

/-- The graph node `Canvace.TileMap.getGraphNode(i, j, k, i1, j1)` produces
(for the cell `(i, j)`; every node of the lazily generated graph has this
shape): the octile heuristic towards the target, the neighbour map and the
per-label distance function. -/
structure GNode where
  heuristic : Q2
  neighbors : Nat → Option (Int × Int)
  distance : Nat → Q2

/-- `Canvace.TileMap.getGraphNode`, one node of the generated graph. -/
def getGraphNodeTM (m : CMatrix) (tiles : List (Int × TileDef)) (i j k i1 j1 : Int) :
    GNode :=
  { heuristic := octileHeuristic i j i1 j1
    neighbors := neighborAt m tiles k i j
    distance := gdistance }

/-- The store invariant: every bucket has `minS`/`maxS` bounds enclosing the
section of each of its entries (maintained by `Bucket.prototype.add`). -/
def bucketInv (st : BucketsState) : Prop :=
  ∀ key : Int × Int, ∀ e : BElem, e ∈ elemsAt st key →
    (getBucket st key).minS ≤ e.p2 ∧ e.p2 ≤ (getBucket st key).maxS

/-! ## Claim theorems -/

/-- C1, counterexample: an element three viewport-widths wide whose projected
box intersects the viewport (`viewGuard` holds) is registered only in bucket
columns `-3` and `-2` by `addToBuckets`, none of which is among the four
queried buckets, so `forEachElement` never invokes the action for it -- the
claimed "if and only if" fails in the "if" direction. -/
theorem forEachElement_misses_wide_element :
    viewGuard 100 100 0 0 bigElem = true ∧
    ¬ bigElem ∈ forEachElementB (placeElem (emptyBuckets 100 100) bigElem) 0 0 := by
  decide

unseal Rat.add Rat.mul Rat.inv Rat.sub in
/-- C2: `updatePosition` computes the candidate bucket indices from the *old*
stored position, so moving the entity from pixel position `(10, 20)` to
`(150, 20)` -- across the bucket-column boundary at `100` -- takes the
mutate-in-place branch: afterwards the entity is still registered exactly in
bucket `(0, 0)` while its new bounding box overlaps exactly bucket `(0, 1)`,
contradicting the claim that it is registered in exactly the buckets its new
projected bounding box overlaps. -/
theorem updatePosition_keeps_stale_buckets :
    registeredKeys c2Run1.1 c2Run1.2 = [(0, 0)] ∧
    overlappedKeysE 100 100 c2Run1.2 = [(0, 1)] ∧
    c2Run1.2.removed = false ∧
    ¬ registeredKeys c2Run1.1 c2Run1.2 = overlappedKeysE 100 100 c2Run1.2 := by
  decide

unseal Rat.add Rat.mul Rat.inv Rat.sub in
/-- C3, counterexample: with `Di = Dj = 0` a computed correction of magnitude
`1/1024 ≤ 0.001` survives the clamp, so the returned vector is
`(1/1024, 0) ≠ (0, 0)` although the claim demands `(0, 0)`; the rectangle
`[1023/1024, 2047/1024) × [0, 1)` does geometrically overlap the solid tile at
cell `(0, 0)`. -/
theorem rectangleCollision_zero_disp_not_zero :
    rectangleCollision c3Map c3Tiles 0 (1023/1024) 0 1 1 0 0 none = ⟨1/1024, 0⟩ ∧
    ¬ (1/1024 : ℚ) = 0 ∧
    solidTileAt c3Map c3Tiles none 0 0 0 = true := by
  decide

unseal Rat.add Rat.mul Rat.inv Rat.sub in
/-- C4: placing the 1×2 tile `7` at `(0, 0, 0)` covers the empty cell
`(0, 0)` and the cell `(0, 1)` occupied by the non-mutable tile `9`; the claim
demands that `putAt` return `false`, but the check phase faults with a
`TypeError` on the empty covered cell (the source calls `undefined.split`),
throwing instead of returning `false` (the map and buckets are left
unchanged). -/
theorem putAt_faults_on_empty_covered_cell :
    mget c4Map 0 1 0 = some (Cell.tile 9) ∧
    tdefLookup c4Tiles 9 = some fixedTile ∧
    fixedTile.mutable = false ∧
    (0, 1) ∈ footprint wideTile 0 0 ∧
    putAtTM c4Tiles idView c4Map (emptyBuckets 100 100) 0 0 0 7 =
      .error (JsError.typeError, c4Map, emptyBuckets 100 100) := by
  decide

unseal Rat.add Rat.mul Rat.inv Rat.sub in
/-- C5: on the four-node graph `cexG` the heuristic is admissible (bounded by
a true remaining cost at every reachable node) and zero exactly at the goal
`3`, yet with `epsilon = 0` `findPath` returns the path `S→A→G` of cost `3`
although the path `S→B→A→G` costs `5/2 < 3`: node `A` is expanded with the
suboptimal score before the cheaper route is found and, being in the closed
set, is never reopened, so the returned cost exceeds `(1+epsilon)` times the
optimum. -/
theorem astar_admissible_heuristic_suboptimal :
    (∀ n ∈ [0, 1, 2, 3], (cexG.h n = 0 ↔ n = 3)) ∧
    cexG.h 0 ≤ pathCost cexG 0 [1, 0, 0] ∧
    cexG.h 1 ≤ pathCost cexG 1 [0] ∧
    cexG.h 2 ≤ pathCost cexG 2 [0, 0] ∧
    astarFindPath cexG 0 30 0 = some [0, 0] ∧
    pathCost cexG 0 [0, 0] = 3 ∧
    pathCost cexG 0 [1, 0, 0] = 5/2 ∧
    (5/2 : ℚ) < 3 := by
  decide

unseal Rat.add Rat.mul Rat.inv Rat.sub in
/-- C6: `replaceTile` on the mutable tile at `(0, 0, 0)` with the invalid id
`99` does signal the error carrying the offending id, but only *after*
removing the old tile: the error state `stAfter6` has the bucket entry and
the eraser entry gone, so the bucket state is not left as it was before the
call. -/
theorem replaceTile_invalid_id_corrupts_state :
    tdefLookup mutTiles 99 = none ∧
    replaceTileB mutTiles idView st6 0 0 0 99 = .error (JsError.invalidId 99, stAfter6) ∧
    (getBucket st6 (0, 0)).entries.length = 1 ∧
    (getBucket stAfter6 (0, 0)).entries = [] ∧
    st6.eraser.length = 1 ∧
    stAfter6.eraser = [] ∧
    ¬ stAfter6 = st6 := by
  decide

unseal Rat.add Rat.mul Rat.inv Rat.sub in
/-- C7: `addTile` with the *mutable* tile `1` returns `undefined` (no remover
-- the mutable branch of the source has no `return` statement), while the
same tile registered as non-mutable does get a remover back; this contradicts
the claim (and the method's own documentation) that a remover is returned for
mutable as well as fixed tiles. -/
theorem addTile_mutable_returns_undefined :
    mutTile.mutable = true ∧
    (tdefLookup mutTiles 1).isSome = true ∧
    addTileB mutTiles idView (emptyBuckets 100 100) 1 0 0 0 = .ok (none, st6) ∧
    fixRemover = some [0] := by
  decide

/-- C10, counterexample: an element two viewport-widths wide intersects the
viewport and overlaps exactly `n = 1` of the four queried buckets, but its
registrations (columns `-2`, `-1`) include none of the queried buckets, so the
action is invoked `0` times rather than `n = 1`. -/
theorem forEachElement_count_not_overlap_count :
    viewGuard 100 100 0 0 wideElem = true ∧
    ((queriedKeys 100 100 0 0).filter
      (fun key => overlapsCell 100 100 key wideElem)).length = 1 ∧
    (forEachElementB (placeElem (emptyBuckets 100 100) wideElem) 0 0).count wideElem = 0 := by
  decide

/-- C3 (amended): for every rectangle collision call with actual displacement
`Di = Dj = 0`, each component of the returned correction vector has magnitude
at most the clamp tolerance `0.001` -- any computed correction exceeding the
tolerance is clamped to `0`, and corrections within the tolerance are returned
as computed (so the vector need not be exactly `(0, 0)`). -/
theorem rectangleCollision_zero_disp_within_tolerance (m : CMatrix)
    (tiles : List (Int × TileDef)) (k : Int) (i j di dj Di Dj : ℚ)
    (collides : Option (Bool → Int → Bool)) (hDi : Di = 0) (hDj : Dj = 0) :
    |(rectangleCollision m tiles k i j di dj Di Dj collides).i| ≤ 1/1000 ∧
    |(rectangleCollision m tiles k i j di dj Di Dj collides).j| ≤ 1/1000 := by
  subst hDi hDj
  have hgen : ∀ x : ℚ, |if |x| > |(0 : ℚ)| + 1/1000 then 0 else x| ≤ 1/1000 := by
    intro x
    split
    · norm_num
    · next h =>
      rw [abs_zero, zero_add] at h
      exact not_lt.mp h
  exact ⟨hgen _, hgen _⟩

/-- Witness for the amended C3 theorem at the counterexample geometry: the
correction returned for the resting rectangle is bounded by the tolerance in
both components. -/
theorem rectangleCollision_zero_disp_within_tolerance_witness :
    |(rectangleCollision c3Map c3Tiles 0 (1023/1024) 0 1 1 0 0 none).i| ≤ 1/1000 ∧
    |(rectangleCollision c3Map c3Tiles 0 (1023/1024) 0 1 1 0 0 none).j| ≤ 1/1000 :=
  rectangleCollision_zero_disp_within_tolerance c3Map c3Tiles 0 (1023/1024) 0 1 1 0 0
    none rfl rfl

/-- C8: in the graph produced by `getGraphNode(i, j, k, i1, j1)`, for every
node `(i, j)` and neighbourhood index `idx < 9` other than the self index `4`:
an odd (orthogonal) edge is present iff the target cell is walkable; an even
(diagonal) edge is present iff the diagonal cell and both orthogonally
adjacent cells are walkable; the node's distance function returns `√2` for
diagonal labels and `1` for orthogonal ones; and the node's heuristic is
exactly `0` iff the node is the target cell `(i1, j1)`. -/
theorem getGraphNode_edges_distance_heuristic (m : CMatrix)
    (tiles : List (Int × TileDef)) (i j k i1 j1 : Int) (idx : Nat)
    (hidx : idx < 9) (hself : ¬ idx = 4) :
    (idx % 2 = 1 →
      (((getGraphNodeTM m tiles i j k i1 j1).neighbors idx).isSome = true ↔
        walkableAt m tiles k (i + diOff.getD idx 0) (j + djOff.getD idx 0) = true)) ∧
    (idx % 2 = 0 →
      (((getGraphNodeTM m tiles i j k i1 j1).neighbors idx).isSome = true ↔
        (walkableAt m tiles k (i + diOff.getD idx 0) (j + djOff.getD idx 0) = true ∧
         walkableAt m tiles k i (j + djOff.getD idx 0) = true ∧
         walkableAt m tiles k (i + diOff.getD idx 0) j = true))) ∧
    ((((getGraphNodeTM m tiles i j k i1 j1).distance idx).a : ℝ) +
        (((getGraphNodeTM m tiles i j k i1 j1).distance idx).b : ℝ) * Real.sqrt 2 =
      if idx % 2 = 1 then 1 else Real.sqrt 2) ∧
    ((((getGraphNodeTM m tiles i j k i1 j1).heuristic.a : ℝ) +
        ((getGraphNodeTM m tiles i j k i1 j1).heuristic.b : ℝ) * Real.sqrt 2 = 0) ↔
      (i = i1 ∧ j = j1)) := by
  refine ⟨?_, ?_, ?_, ?_⟩
  · intro hodd
    interval_cases idx <;> simp_all [getGraphNodeTM, neighborAt, diOff, djOff]
  · intro heven
    interval_cases idx <;> simp_all [getGraphNodeTM, neighborAt, diOff, djOff]
  · show ((gdistance idx).a : ℝ) + ((gdistance idx).b : ℝ) * Real.sqrt 2 = _
    unfold gdistance
    by_cases h : idx % 2 = 1 <;> simp [h]
  · show (((octileHeuristic i j i1 j1).a : ℝ) +
        ((octileHeuristic i j i1 j1).b : ℝ) * Real.sqrt 2 = 0) ↔ _
    constructor
    · intro h
      have hs2 : (0 : ℝ) < Real.sqrt 2 := Real.sqrt_pos.mpr (by norm_num)
      simp only [octileHeuristic] at h
      set d1 := |i1 - i| with hd1
      set d2 := |j1 - j| with hd2
      have h1 : (0 : ℝ) ≤ (((max d1 d2 - min d1 d2 : ℤ) : ℚ) : ℝ) := by
        have hz : (0 : ℤ) ≤ max d1 d2 - min d1 d2 := sub_nonneg.mpr min_le_max
        exact_mod_cast hz
      have h2 : (0 : ℝ) ≤ (((min d1 d2 : ℤ) : ℚ) : ℝ) := by
        have hz : (0 : ℤ) ≤ min d1 d2 := le_min (abs_nonneg _) (abs_nonneg _)
        exact_mod_cast hz
      have hb : (((min d1 d2 : ℤ) : ℚ) : ℝ) = 0 := by nlinarith
      have ha : (((max d1 d2 - min d1 d2 : ℤ) : ℚ) : ℝ) = 0 := by nlinarith
      have hbz : min d1 d2 = 0 := by exact_mod_cast hb
      have haz : max d1 d2 - min d1 d2 = 0 := by exact_mod_cast ha
      have e1 : d1 = ((i1 - i).natAbs : ℤ) := by rw [hd1, Int.abs_eq_natAbs]
      have e2 : d2 = ((j1 - j).natAbs : ℤ) := by rw [hd2, Int.abs_eq_natAbs]
      constructor <;> omega
    · rintro ⟨rfl, rfl⟩
      simp [octileHeuristic]

/-- Witness for the C8 theorem at the diagonal label `8` of the node `(0, 0)`
(target `(1, 1)`) on the concrete 2×2 patch `c8Map`. -/
theorem getGraphNode_edges_distance_heuristic_witness :
    (8 % 2 = 1 →
      (((getGraphNodeTM c8Map c8Tiles 0 0 0 1 1).neighbors 8).isSome = true ↔
        walkableAt c8Map c8Tiles 0 (0 + diOff.getD 8 0) (0 + djOff.getD 8 0) = true)) ∧
    (8 % 2 = 0 →
      (((getGraphNodeTM c8Map c8Tiles 0 0 0 1 1).neighbors 8).isSome = true ↔
        (walkableAt c8Map c8Tiles 0 (0 + diOff.getD 8 0) (0 + djOff.getD 8 0) = true ∧
         walkableAt c8Map c8Tiles 0 0 (0 + djOff.getD 8 0) = true ∧
         walkableAt c8Map c8Tiles 0 (0 + diOff.getD 8 0) 0 = true))) ∧
    ((((getGraphNodeTM c8Map c8Tiles 0 0 0 1 1).distance 8).a : ℝ) +
        (((getGraphNodeTM c8Map c8Tiles 0 0 0 1 1).distance 8).b : ℝ) * Real.sqrt 2 =
      if 8 % 2 = 1 then 1 else Real.sqrt 2) ∧
    ((((getGraphNodeTM c8Map c8Tiles 0 0 0 1 1).heuristic.a : ℝ) +
        ((getGraphNodeTM c8Map c8Tiles 0 0 0 1 1).heuristic.b : ℝ) * Real.sqrt 2 = 0) ↔
      ((0 : Int) = 1 ∧ (0 : Int) = 1)) :=
  getGraphNode_edges_distance_heuristic c8Map c8Tiles 0 0 0 1 1 8
    (by decide) (by decide)

/-- The running gcd of the durations divides the seed and every duration. -/
theorem foldl_gcd_dvd (l : List (Int × Nat)) : ∀ g : Nat,
    (l.foldl (fun g f => Nat.gcd g f.2) g) ∣ g ∧
    ∀ f ∈ l, (l.foldl (fun g f => Nat.gcd g f.2) g) ∣ f.2 := by
  induction l with
  | nil => simp
  | cons a l ih =>
    intro g
    have h := ih (Nat.gcd g a.2)
    refine ⟨h.1.trans (Nat.gcd_dvd_left _ _), ?_⟩
    intro f hf
    rcases List.mem_cons.mp hf with rfl | hf
    · exact h.1.trans (Nat.gcd_dvd_right _ _)
    · exact h.2 f hf

/-- A left fold of additions is at least its accumulator. -/
theorem foldl_add_le (l : List (Int × Nat)) : ∀ acc : Nat,
    acc ≤ l.foldl (fun s f => s + f.2) acc := by
  induction l with
  | nil => simp
  | cons a l ih =>
    intro acc
    exact le_trans (Nat.le_add_right acc a.2) (ih (acc + a.2))

/-- A non-empty looping sequence with positive durations has positive total
duration. -/
theorem fullDur_pos (frames : List (Int × Nat)) (hpos : ∀ f ∈ frames, 0 < f.2)
    (hne : frames ≠ []) : 0 < fullDur frames := by
  match frames, hne with
  | f :: rest, _ =>
    have h1 : 0 < f.2 := hpos f (List.mem_cons_self f rest)
    have h2 := foldl_add_le rest (0 + f.2)
    unfold fullDur
    simp only [List.foldl_cons]
    omega

/-- A common divisor of the accumulator and of all durations divides the
folded sum. -/
theorem dvd_foldl_add (u : Nat) (l : List (Int × Nat)) (h : ∀ f ∈ l, u ∣ f.2) :
    ∀ acc : Nat, u ∣ acc → u ∣ l.foldl (fun s f => s + f.2) acc := by
  induction l with
  | nil => simp
  | cons a l ih =>
    intro acc hacc
    simp only [List.foldl_cons]
    exact ih (fun f hf => h f (List.mem_cons_of_mem a hf)) _
      (Nat.dvd_add hacc (h a (List.mem_cons_self a l)))

/-- The sampling unit `gcd(gcd of durations, period)` divides the total loop
duration. -/
theorem unit_dvd_fullDur (frames : List (Int × Nat)) (period : Nat) :
    Nat.gcd (durGcd frames) period ∣ fullDur frames := by
  apply dvd_foldl_add
  · intro f hf
    exact (Nat.gcd_dvd_left _ _).trans ((foldl_gcd_dvd frames 0).2 f hf)
  · exact Nat.dvd_zero _

/-- The duration gcd fold stays positive from a positive seed. -/
theorem foldl_gcd_pos (l : List (Int × Nat)) (hl : ∀ f ∈ l, 0 < f.2) :
    ∀ g : Nat, 0 < g → 0 < l.foldl (fun g f => Nat.gcd g f.2) g := by
  induction l with
  | nil => exact fun _ hg => hg
  | cons a l ih =>
    intro g hg
    simp only [List.foldl_cons]
    exact ih (fun f hf => hl f (List.mem_cons_of_mem a hf)) _
      (Nat.gcd_pos_of_pos_left _ hg)

/-- The duration gcd of a non-empty positive-duration sequence is positive. -/
theorem durGcd_pos (frames : List (Int × Nat)) (hpos : ∀ f ∈ frames, 0 < f.2)
    (hne : frames ≠ []) : 0 < durGcd frames := by
  match frames, hne with
  | f :: rest, _ =>
    unfold durGcd
    simp only [List.foldl_cons, Nat.gcd_zero_left]
    exact foldl_gcd_pos rest (fun g hg => hpos g (List.mem_cons_of_mem f hg)) _
      (hpos f (List.mem_cons_self f rest))

/-- `jsMod` is invariant under shifting by its (non-zero) modulus. -/
theorem jsMod_add_self (t T : ℚ) (hT : T ≠ 0) : jsMod (t + T) T = jsMod t T := by
  unfold jsMod
  have h : (t + T) / T = t / T + 1 := by field_simp
  rw [h, Int.floor_add_one]
  push_cast
  ring

/-- The table key `⌊(t mod U·c) / U⌋` is the same for every `t` in the
sampling interval `[U·k, U·(k+1))`: the value `k - ⌊U·k/(U·c)⌋·c`. -/
theorem key_const (U : ℚ) (c : ℕ) (kk : ℕ) (t : ℚ) (hU : 0 < U) (hc : 0 < c)
    (h1 : U * kk ≤ t) (h2 : t < U * (kk + 1)) :
    ⌊jsMod t (U * c) / U⌋ = kk - ⌊(U * (kk : ℚ)) / (U * c)⌋ * c := by
  have hUne : U ≠ 0 := ne_of_gt hU
  have hcq : (0 : ℚ) < (c : ℚ) := by exact_mod_cast hc
  have hT : (0 : ℚ) < U * c := mul_pos hU hcq
  have hfl : ⌊t / U⌋ = (kk : ℤ) := by
    rw [Int.floor_eq_iff]
    constructor
    · rw [le_div_iff hU]
      push_cast
      linarith
    · rw [div_lt_iff hU]
      push_cast
      linarith
  set m0 := ⌊(U * (kk : ℚ)) / (U * c)⌋ with hm0
  have hfT : ⌊t / (U * c)⌋ = m0 := by
    rw [Int.floor_eq_iff]
    constructor
    · calc (m0 : ℚ) ≤ (U * kk) / (U * c) := Int.floor_le _
        _ ≤ t / (U * c) := by
            exact (div_le_div_right hT).mpr h1
    · rw [div_lt_iff hT]
      have hlt : (U * (kk : ℚ)) / (U * c) < m0 + 1 := Int.lt_floor_add_one _
      rw [div_lt_iff hT] at hlt
      have hZ : (kk : ℤ) < (m0 + 1) * c := by
        have h3 : U * (kk : ℚ) < U * (((m0 + 1) * (c : ℤ) : ℤ) : ℚ) := by
          push_cast
          nlinarith
        have h4 := (mul_lt_mul_left hU).mp h3
        exact_mod_cast h4
      have hZ1 : (kk : ℤ) + 1 ≤ (m0 + 1) * c := hZ
      have h5 : ((kk : ℚ) + 1) ≤ ((m0 : ℚ) + 1) * (c : ℚ) := by exact_mod_cast hZ1
      calc t < U * (kk + 1) := h2
        _ ≤ (m0 + 1) * (U * c) := by
            nlinarith [mul_le_mul_of_nonneg_left h5 (le_of_lt hU)]
  rw [jsMod, hfT]
  have hdiv : (t - (U * c) * m0) / U = t / U - ((m0 * c : ℤ) : ℚ) := by
    field_simp
    ring
  rw [hdiv, Int.floor_sub_int, hfl]

/-- C9: for every registered looping animation (every frame declares a
positive duration) with total loop duration `T = fullDur frames` and sampling
unit `U = gcd(gcd of durations, period)` (the unit in effect after
`synchronize(period)`; construction time is `period = gcd of durations`):
`animation(t + T) = animation(t)` for all `t ≥ 0`, and `animation` is constant
on each half-open interval `[kU, (k+1)U)`. -/
theorem animation_looping_periodic_and_quantized (frames : List (Int × Nat))
    (period : Nat) (hpos : ∀ f ∈ frames, 0 < f.2) :
    (∀ t : ℚ, 0 ≤ t →
      animate frames period (t + (fullDur frames : ℚ)) = animate frames period t) ∧
    (∀ kk : Nat, ∀ t t1 : ℚ,
      (Nat.gcd (durGcd frames) period : ℚ) * kk ≤ t →
      t < (Nat.gcd (durGcd frames) period : ℚ) * (kk + 1) →
      (Nat.gcd (durGcd frames) period : ℚ) * kk ≤ t1 →
      t1 < (Nat.gcd (durGcd frames) period : ℚ) * (kk + 1) →
      animate frames period t = animate frames period t1) := by
  by_cases hlen : frames.length < 2
  · constructor
    · intro t _
      simp [animate, hlen]
    · intro kk t t1 _ _ _ _
      simp [animate, hlen]
  · have hne : frames ≠ [] := by
      intro h
      rw [h] at hlen
      simp at hlen
    have hT : 0 < fullDur frames := fullDur_pos frames hpos hne
    have hTq : (0 : ℚ) < (fullDur frames : ℚ) := by exact_mod_cast hT
    have hTne : (fullDur frames : ℚ) ≠ 0 := ne_of_gt hTq
    have hU : 0 < Nat.gcd (durGcd frames) period :=
      Nat.gcd_pos_of_pos_left _ (durGcd_pos frames hpos hne)
    have hUq : (0 : ℚ) < (Nat.gcd (durGcd frames) period : ℚ) := by exact_mod_cast hU
    constructor
    · intro t _
      simp only [animate]
      rw [if_neg hlen, if_neg hlen, jsMod_add_self t _ hTne]
    · intro kk t t1 ha hb hc1 hd
      have hdvd := unit_dvd_fullDur frames period
      set U := Nat.gcd (durGcd frames) period with hUdef
      set c := fullDur frames / U with hcdef
      have hTc : fullDur frames = U * c := (Nat.mul_div_cancel' hdvd).symm
      have hcpos : 0 < c := by
        rcases Nat.eq_zero_or_pos c with h0 | h
        · rw [h0, Nat.mul_zero] at hTc
          omega
        · exact h
      have hcast : ((fullDur frames : ℕ) : ℚ) = (U : ℚ) * (c : ℚ) := by
        rw [hTc]
        push_cast
        ring
      have k1 := key_const (U : ℚ) c kk t hUq hcpos ha hb
      have k2 := key_const (U : ℚ) c kk t1 hUq hcpos hc1 hd
      have hkeys : ⌊jsMod t ((fullDur frames : ℕ) : ℚ) / (U : ℚ)⌋ =
          ⌊jsMod t1 ((fullDur frames : ℕ) : ℚ) / (U : ℚ)⌋ := by
        rw [hcast, k1, k2]
      simp only [animate]
      rw [if_neg hlen, if_neg hlen, hkeys]

/-- Witness for the C9 theorem on the concrete looping sequence
`[(1, 2), (2, 3)]` with `period = 1`: periodicity at `t = 7` and constancy on
the interval `[2, 3)` at `t = 5/2`, `t1 = 11/4`. -/
theorem animation_looping_periodic_and_quantized_witness :
    animate [(1, 2), (2, 3)] 1 (7 + (fullDur [(1, 2), (2, 3)] : ℚ)) =
      animate [(1, 2), (2, 3)] 1 7 ∧
    animate [(1, 2), (2, 3)] 1 (5/2) = animate [(1, 2), (2, 3)] 1 (11/4) := by
  have h := animation_looping_periodic_and_quantized [(1, 2), (2, 3)] 1 (by decide)
  refine ⟨h.1 7 (by norm_num), h.2 2 (5/2) (11/4) ?_ ?_ ?_ ?_⟩ <;>
    · rw [Nat.gcd_one_right]
      norm_num

/-- The function `find?` ignores a filter whose predicate is implied by the
search predicate. -/
theorem find_filter_of_imp {α : Type} (l : List α) (p q : α → Bool)
    (h : ∀ x, p x = true → q x = true) : (l.filter q).find? p = l.find? p := by
  induction l with
  | nil => rfl
  | cons a l ih =>
    by_cases hq : q a = true
    · rw [List.filter_cons_of_pos hq]
      by_cases hp : p a = true
      · rw [List.find?_cons_of_pos _ hp, List.find?_cons_of_pos _ hp]
      · rw [List.find?_cons_of_neg _ (by simpa using hp),
          List.find?_cons_of_neg _ (by simpa using hp)]
        exact ih
    · have hp : ¬ p a = true := fun hpa => hq (h a hpa)
      rw [List.filter_cons_of_neg (by simpa using hq),
        List.find?_cons_of_neg _ (by simpa using hp)]
      exact ih

/-- Bucket lookup after a store update. -/
theorem getBucket_setBucket (st : BucketsState) (key : Int × Int) (b : BucketB)
    (key1 : Int × Int) :
    getBucket (setBucket st key b) key1 = if key1 = key then b else getBucket st key1 := by
  unfold getBucket setBucket
  by_cases h : key1 = key
  · subst h
    simp [List.find?_cons_of_pos]
  · rw [if_neg h]
    simp only []
    have hpa : ¬ (fun kb : (Int × Int) × BucketB => decide (kb.1 = key1)) (key, b) = true := by
      simp only [decide_eq_true_eq]
      exact fun hc => h hc.symm
    rw [@List.find?_cons_of_neg ((Int × Int) × BucketB) (fun kb => decide (kb.1 = key1))
        (key, b) (List.filter (fun kb => decide ¬ kb.1 = key) st.buckets) hpa,
      find_filter_of_imp]
    intro kb hkb
    simp only [decide_eq_true_eq] at hkb ⊢
    intro hc
    exact h (by rw [← hc, hkb])

/-- Bucket lookup after one `Bucket.prototype.add`. -/
theorem getBucket_addEntry (st : BucketsState) (key : Int × Int) (e : BElem)
    (key1 : Int × Int) :
    getBucket ((addEntryB st key e).1) key1 =
      if key1 = key then
        ⟨(getBucket st key).entries ++ [(st.nextTok, e)],
          min (getBucket st key).minS e.p2, max (getBucket st key).maxS e.p2⟩
      else getBucket st key1 := by
  unfold addEntryB
  simp only []
  rw [getBucket_setBucket]
  rfl

/-- The element lists after one `Bucket.prototype.add`. -/
theorem elemsAt_addEntry (st : BucketsState) (key : Int × Int) (e : BElem)
    (key1 : Int × Int) :
    elemsAt ((addEntryB st key e).1) key1 =
      elemsAt st key1 ++ (if key1 = key then [e] else []) := by
  unfold elemsAt
  rw [getBucket_addEntry]
  by_cases h : key1 = key
  · simp [h]
  · simp [h]

/-- Adding a bucket entry does not touch the viewport extents. -/
theorem addEntry_width (st : BucketsState) (key : Int × Int) (e : BElem) :
    ((addEntryB st key e).1).width = st.width ∧
    ((addEntryB st key e).1).height = st.height := ⟨rfl, rfl⟩

/-- Registering an element in several buckets keeps the viewport extents. -/
theorem foldAdd_width (keys : List (Int × Int)) (e : BElem) : ∀ st : BucketsState,
    (keys.foldl (fun s k => (addEntryB s k e).1) st).width = st.width ∧
    (keys.foldl (fun s k => (addEntryB s k e).1) st).height = st.height := by
  induction keys with
  | nil => exact fun st => ⟨rfl, rfl⟩
  | cons a keys ih =>
    intro st
    simp only [List.foldl_cons]
    exact ih ((addEntryB st a e).1)

/-- Placing an element keeps the viewport extents. -/
theorem placeElem_width (st : BucketsState) (e : BElem) :
    (placeElem st e).width = st.width ∧ (placeElem st e).height = st.height :=
  foldAdd_width _ e st

/-- Placing a list of elements keeps the viewport extents. -/
theorem foldPlace_width (L : List BElem) : ∀ st : BucketsState,
    (L.foldl placeElem st).width = st.width ∧
    (L.foldl placeElem st).height = st.height := by
  induction L with
  | nil => exact fun st => ⟨rfl, rfl⟩
  | cons a L ih =>
    intro st
    simp only [List.foldl_cons]
    rw [(ih (placeElem st a)).1, (ih (placeElem st a)).2,
      (placeElem_width st a).1, (placeElem_width st a).2]
    exact ⟨rfl, rfl⟩

/-- Registering an element under a duplicate-free key list appends it to
exactly the listed buckets. -/
theorem elemsAt_foldAddEntry (keys : List (Int × Int)) (e : BElem) (key : Int × Int) :
    ∀ st : BucketsState, keys.Nodup →
    elemsAt (keys.foldl (fun s k => (addEntryB s k e).1) st) key =
      elemsAt st key ++ (if key ∈ keys then [e] else []) := by
  induction keys with
  | nil => simp
  | cons a keys ih =>
    intro st hnd
    simp only [List.foldl_cons]
    rw [ih _ (List.nodup_cons.mp hnd).2, elemsAt_addEntry]
    by_cases hka : key = a
    · subst hka
      have hnotin : ¬ key ∈ keys := (List.nodup_cons.mp hnd).1
      simp [hnotin]
    · simp [hka, List.mem_cons]

/-- The (up to four) keys of `addToBuckets` are pairwise distinct. -/
theorem addKeys_nodup (W H bi bj p0 p1 w h : Int) : (addKeys W H bi bj p0 p1 w h).Nodup := by
  unfold addKeys
  by_cases h1 : bi < (p1 + h) / H <;> by_cases h2 : bj < (p0 + w) / W <;>
    simp [h1, h2, List.nodup_cons, Prod.ext_iff] <;> omega

/-- The element lists after placing one element. -/
theorem elemsAt_placeElem (st : BucketsState) (e : BElem) (key : Int × Int) :
    elemsAt (placeElem st e) key =
      elemsAt st key ++ (if key ∈ keysOf st.width st.height e then [e] else []) :=
  elemsAt_foldAddEntry _ e key st (addKeys_nodup _ _ _ _ _ _ _ _)

/-- The invariant holds for the fresh store. -/
theorem bucketInv_empty (W H : Int) : bucketInv (emptyBuckets W H) := by
  intro key e he
  simp [elemsAt, getBucket, emptyBuckets, BucketB.empty] at he

/-- Adding a bucket entry preserves the section-bound invariant. -/
theorem bucketInv_addEntry (st : BucketsState) (key : Int × Int) (e : BElem)
    (h : bucketInv st) : bucketInv ((addEntryB st key e).1) := by
  intro key1 e1 he1
  rw [elemsAt_addEntry] at he1
  rw [getBucket_addEntry]
  by_cases hk : key1 = key
  · subst hk
    simp only [if_pos rfl] at he1 ⊢
    rcases List.mem_append.mp he1 with hmem | hmem
    · have := h key1 e1 hmem
      constructor
      · exact le_trans (min_le_left _ _) this.1
      · exact le_trans this.2 (le_max_left _ _)
    · have : e1 = e := by simpa using hmem
      subst this
      exact ⟨min_le_right _ _, le_max_right _ _⟩
  · simp only [if_neg hk] at he1 ⊢
    rw [List.append_nil] at he1
    exact h key1 e1 he1

/-- Registration in several buckets preserves the invariant. -/
theorem bucketInv_foldAdd (keys : List (Int × Int)) (e : BElem) :
    ∀ st : BucketsState, bucketInv st →
    bucketInv (keys.foldl (fun s k => (addEntryB s k e).1) st) := by
  induction keys with
  | nil => exact fun st h => h
  | cons a keys ih =>
    intro st h
    simp only [List.foldl_cons]
    exact ih _ (bucketInv_addEntry st a e h)

/-- Placing an element preserves the invariant. -/
theorem bucketInv_placeElem (st : BucketsState) (e : BElem) (h : bucketInv st) :
    bucketInv (placeElem st e) :=
  bucketInv_foldAdd _ e st h

/-- Placing a list of elements preserves the invariant. -/
theorem bucketInv_foldPlace (L : List BElem) : ∀ st : BucketsState, bucketInv st →
    bucketInv (L.foldl placeElem st) := by
  induction L with
  | nil => exact fun st h => h
  | cons a L ih =>
    intro st h
    simp only [List.foldl_cons]
    exact ih _ (bucketInv_placeElem st a h)

/-- Membership in an embedded integer loop range. -/
theorem mem_intRange (a b s : Int) : s ∈ intRange a b ↔ a ≤ s ∧ s ≤ b := by
  unfold intRange
  constructor
  · intro h
    obtain ⟨n, hn, hs⟩ := List.mem_map.mp h
    rw [List.mem_range] at hn
    omega
  · intro hs
    apply List.mem_map.mpr
    exact ⟨(s - a).toNat, List.mem_range.mpr (by omega), by omega⟩

/-- Placing further elements never removes a registration. -/
theorem mem_elemsAt_foldPlace_mono (L : List BElem) (E : BElem) (key : Int × Int) :
    ∀ st : BucketsState, E ∈ elemsAt st key → E ∈ elemsAt (L.foldl placeElem st) key := by
  induction L with
  | nil => exact fun st h => h
  | cons a L ih =>
    intro st h
    simp only [List.foldl_cons]
    apply ih
    rw [elemsAt_placeElem]
    exact List.mem_append_left _ h

/-- A placed element is registered in each of its `addToBuckets` keys. -/
theorem mem_elemsAt_foldPlace (W H : Int) (L : List BElem) (E : BElem) (key : Int × Int) :
    ∀ st : BucketsState, st.width = W → st.height = H → E ∈ L →
    key ∈ keysOf W H E → E ∈ elemsAt (L.foldl placeElem st) key := by
  induction L with
  | nil => intro st _ _ h; exact absurd h (List.not_mem_nil E)
  | cons a L ih =>
    intro st hW hH hmem hkey
    simp only [List.foldl_cons]
    rcases List.mem_cons.mp hmem with rfl | hmem
    · apply mem_elemsAt_foldPlace_mono
      rw [elemsAt_placeElem, hW, hH, if_pos hkey]
      exact List.mem_append_right _ (List.mem_singleton.mpr rfl)
    · exact ih (placeElem st a) (by rw [(placeElem_width st a).1, hW])
        (by rw [(placeElem_width st a).2, hH]) hmem hkey

/-- Characterization of the `addToBuckets` key list. -/
theorem mem_addKeys (W H bi bj p0 p1 w h : Int) (r c : Int) :
    (r, c) ∈ addKeys W H bi bj p0 p1 w h ↔
      ((r = bi ∨ (r = bi + 1 ∧ bi < (p1 + h) / H)) ∧
       (c = bj ∨ (c = bj + 1 ∧ bj < (p0 + w) / W))) := by
  unfold addKeys
  by_cases h1 : bi < (p1 + h) / H <;> by_cases h2 : bj < (p0 + w) / W <;>
    simp [h1, h2, Prod.ext_iff, List.mem_append, List.mem_cons] <;> tauto

/-- Floor division shifts by one when the dividend grows by the divisor. -/
theorem ediv_add_one (p W : Int) (hW : 0 < W) : (p + W) / W = p / W + 1 := by
  have h := Int.add_mul_ediv_right p 1 (ne_of_gt hW)
  simpa using h

/-- The geometric core of the bucket-membership invariant: an element no
larger than a bucket whose box passes the viewport test is registered in at
least one of the four queried buckets. -/
theorem queried_meets_keys (W H ox oy : Int) (e : BElem) (hW : 0 < W) (hH : 0 < H)
    (h0w : 0 ≤ e.width) (h0h : 0 ≤ e.height) (hw : e.width ≤ W) (hh : e.height ≤ H)
    (hg : viewGuard W H ox oy e = true) :
    ∃ key : Int × Int, key ∈ queriedKeys W H ox oy ∧ key ∈ keysOf W H e := by
  simp only [viewGuard, Bool.and_eq_true, decide_eq_true_eq] at hg
  obtain ⟨⟨⟨hg1, hg2⟩, hg3⟩, hg4⟩ := hg
  have col : e.p0 / W ≤ (e.p0 + e.width) / W ∧ (e.p0 + e.width) / W ≤ e.p0 / W + 1 ∧
      (-ox) / W ≤ (e.p0 + e.width) / W ∧ e.p0 / W ≤ (-ox) / W + 1 := by
    refine ⟨Int.ediv_le_ediv hW (by omega), ?_, Int.ediv_le_ediv hW (by omega), ?_⟩
    · have hle : (e.p0 + e.width) / W ≤ (e.p0 + W) / W := Int.ediv_le_ediv hW (by omega)
      rw [ediv_add_one e.p0 W hW] at hle
      exact hle
    · have hle : e.p0 / W ≤ (-ox - 1 + W) / W := Int.ediv_le_ediv hW (by omega)
      rw [ediv_add_one (-ox - 1) W hW] at hle
      have hle2 : (-ox - 1) / W ≤ (-ox) / W := Int.ediv_le_ediv hW (by omega)
      omega
  have row : e.p1 / H ≤ (e.p1 + e.height) / H ∧ (e.p1 + e.height) / H ≤ e.p1 / H + 1 ∧
      (-oy) / H ≤ (e.p1 + e.height) / H ∧ e.p1 / H ≤ (-oy) / H + 1 := by
    refine ⟨Int.ediv_le_ediv hH (by omega), ?_, Int.ediv_le_ediv hH (by omega), ?_⟩
    · have hle : (e.p1 + e.height) / H ≤ (e.p1 + H) / H := Int.ediv_le_ediv hH (by omega)
      rw [ediv_add_one e.p1 H hH] at hle
      exact hle
    · have hle : e.p1 / H ≤ (-oy - 1 + H) / H := Int.ediv_le_ediv hH (by omega)
      rw [ediv_add_one (-oy - 1) H hH] at hle
      have hle2 : (-oy - 1) / H ≤ (-oy) / H := Int.ediv_le_ediv hH (by omega)
      omega
  refine ⟨(max (e.p1 / H) ((-oy) / H), max (e.p0 / W) ((-ox) / W)), ?_, ?_⟩
  · have hr : max (e.p1 / H) ((-oy) / H) = (-oy) / H ∨
        max (e.p1 / H) ((-oy) / H) = (-oy) / H + 1 := by omega
    have hc : max (e.p0 / W) ((-ox) / W) = (-ox) / W ∨
        max (e.p0 / W) ((-ox) / W) = (-ox) / W + 1 := by omega
    simp only [queriedKeys, List.mem_cons, List.not_mem_nil, or_false, Prod.mk.injEq]
    tauto
  · rw [keysOf, mem_addKeys]
    constructor
    · have : max (e.p1 / H) ((-oy) / H) ≤ (e.p1 + e.height) / H := by omega
      omega
    · have : max (e.p0 / W) ((-ox) / W) ≤ (e.p0 + e.width) / W := by omega
      omega

/-- An entry is enumerated by its own section. -/
theorem mem_enumSec (b : BucketB) (E : BElem)
    (hE : E ∈ b.entries.map (fun te => te.2)) : E ∈ enumerateSectionB b E.p2 := by
  unfold enumerateSectionB
  exact List.mem_filter.mpr ⟨hE, by simp⟩

/-- An element registered, under the store invariant, in a queried bucket and
passing the visibility test is emitted by `forEachElement`. -/
theorem mem_forEach_of (st : BucketsState) (ox oy : Int) (E : BElem) (key : Int × Int)
    (hInv : bucketInv st)
    (hg : viewGuard st.width st.height ox oy E = true)
    (hqk : key ∈ queriedKeys st.width st.height ox oy)
    (hE : E ∈ elemsAt st key) :
    E ∈ forEachElementB st ox oy := by
  have hb := hInv key E hE
  unfold forEachElementB
  apply List.mem_flatMap.mpr
  refine ⟨E.p2, ?_, ?_⟩
  · rw [mem_intRange]
    simp only [queriedKeys, List.mem_cons, List.not_mem_nil, or_false] at hqk
    rcases hqk with rfl | rfl | rfl | rfl <;>
      constructor <;> omega
  · apply List.mem_filter.mpr
    refine ⟨?_, hg⟩
    simp only [queriedKeys, List.mem_cons, List.not_mem_nil, or_false] at hqk
    rcases hqk with rfl | rfl | rfl | rfl
    · exact List.mem_append_left _ (List.mem_append_left _
        (List.mem_append_left _ (mem_enumSec _ E hE)))
    · exact List.mem_append_left _ (List.mem_append_left _
        (List.mem_append_right _ (mem_enumSec _ E hE)))
    · exact List.mem_append_left _ (List.mem_append_right _ (mem_enumSec _ E hE))
    · exact List.mem_append_right _ (mem_enumSec _ E hE)

/-- Every element emitted by `forEachElement` passes the visibility test. -/
theorem guard_of_mem_forEach (st : BucketsState) (ox oy : Int) (E : BElem)
    (h : E ∈ forEachElementB st ox oy) :
    viewGuard st.width st.height ox oy E = true := by
  unfold forEachElementB at h
  obtain ⟨s, _, hmem⟩ := List.mem_flatMap.mp h
  exact (List.mem_filter.mp hmem).2

/-- C1 (amended): for every placed element `E` whose projected box is no
larger than a bucket (equivalently, than the viewport) on both axes, and
every `forEachElement` call, the action callback is invoked for `E` (at least
once) iff the projected bounding box of `E` intersects the current viewport
rectangle.  (The counterexample shows the size bound is necessary: larger
elements are registered in at most 2x2 buckets and can be missed.) -/
theorem forEachElement_iff_intersects_viewport (W H ox oy : Int) (L : List BElem) (E : BElem)
    (hW : 0 < W) (hH : 0 < H) (h0w : 0 ≤ E.width) (h0h : 0 ≤ E.height)
    (hw : E.width ≤ W) (hh : E.height ≤ H) (hmem : E ∈ L) :
    (E ∈ forEachElementB (L.foldl placeElem (emptyBuckets W H)) ox oy ↔
      viewGuard W H ox oy E = true) := by
  have hWw : (L.foldl placeElem (emptyBuckets W H)).width = W :=
    (foldPlace_width L (emptyBuckets W H)).1
  have hHh : (L.foldl placeElem (emptyBuckets W H)).height = H :=
    (foldPlace_width L (emptyBuckets W H)).2
  constructor
  · intro h
    have hgd := guard_of_mem_forEach _ ox oy E h
    rwa [hWw, hHh] at hgd
  · intro hg
    obtain ⟨key, hq, hk⟩ := queried_meets_keys W H ox oy E hW hH h0w h0h hw hh hg
    exact mem_forEach_of _ ox oy E key
      (bucketInv_foldPlace L _ (bucketInv_empty W H))
      (by rwa [hWw, hHh]) (by rwa [hWw, hHh])
      (mem_elemsAt_foldPlace W H L E key (emptyBuckets W H) rfl rfl hmem hk)

/-- Occurrence count through a filter. -/
theorem count_filter_ite {α : Type} [DecidableEq α] (l : List α) (p : α → Bool) (a : α) :
    (l.filter p).count a = if p a = true then l.count a else 0 := by
  by_cases h : p a = true
  · rw [if_pos h, List.count_filter h]
  · rw [if_neg h]
    refine List.count_eq_zero.mpr (fun hmem => h (List.mem_filter.mp hmem).2)

/-- Occurrence count of a section enumeration. -/
theorem count_enumSec (b : BucketB) (E : BElem) (s : Int) :
    (enumerateSectionB b s).count E =
      if E.p2 = s then (b.entries.map (fun te => te.2)).count E else 0 := by
  unfold enumerateSectionB
  rw [count_filter_ite]
  by_cases h : E.p2 = s <;> simp [h]

/-- Occurrence count of an element in a bucket after placing a list: one per
list occurrence if the bucket is among the keys of the element. -/
theorem count_elemsAt_foldPlace (W H : Int) (L : List BElem) (E : BElem)
    (key : Int × Int) : ∀ st : BucketsState, st.width = W → st.height = H →
    (elemsAt (L.foldl placeElem st) key).count E =
      (elemsAt st key).count E + (if key ∈ keysOf W H E then L.count E else 0) := by
  induction L with
  | nil => intro st _ _; simp
  | cons a L ih =>
    intro st hWw hHh
    simp only [List.foldl_cons]
    rw [ih (placeElem st a) (by rw [(placeElem_width st a).1, hWw])
      (by rw [(placeElem_width st a).2, hHh])]
    rw [elemsAt_placeElem, hWw, hHh, List.count_append]
    by_cases hae : a = E
    · subst hae
      by_cases hkey : key ∈ keysOf W H a <;>
        simp [hkey, List.count_cons] <;> omega
    · have hca : ([a].count E) = 0 := by
        simp [List.count_singleton, hae]
      have hc : (a :: L).count E = L.count E := by
        simp [List.count_cons, hae]
      by_cases hkey : key ∈ keysOf W H a <;> by_cases hk2 : key ∈ keysOf W H E <;>
        simp [hkey, hk2, hca, hc]

/-- Summing an indicator over a duplicate-free list. -/
theorem sum_map_ite_mem (l : List Int) (hnd : l.Nodup) (t : Int) (C : Nat) :
    (l.map (fun s => if t = s then C else 0)).sum = if t ∈ l then C else 0 := by
  induction l with
  | nil => simp
  | cons a l ih =>
    simp only [List.map_cons, List.sum_cons]
    obtain ⟨hna, hnd2⟩ := List.nodup_cons.mp hnd
    by_cases hta : t = a
    · subst hta
      have hz : (l.map (fun s => if t = s then C else 0)).sum = 0 := by
        apply List.sum_eq_zero
        intro x hx
        obtain ⟨s, hs, rfl⟩ := List.mem_map.mp hx
        have : ¬ t = s := fun hc => hna (hc ▸ hs)
        simp [this]
      simp [hz]
    · rw [ih hnd2]
      by_cases htl : t ∈ l <;> simp [hta, htl]

/-- Loop ranges are duplicate-free. -/
theorem intRange_nodup (a b : Int) : (intRange a b).Nodup := by
  unfold intRange
  refine List.Nodup.map ?_ (List.nodup_range _)
  intro x y hxy
  have hxy2 : a + (x : Int) = a + (y : Int) := hxy
  omega

/-- The number of `action` invocations for an element in one `forEachElement`
call is its total registration count over the four queried buckets (under the
store invariant, when it passes the visibility test). -/
theorem count_forEach (st : BucketsState) (ox oy : Int) (E : BElem)
    (hInv : bucketInv st)
    (hg : viewGuard st.width st.height ox oy E = true) :
    (forEachElementB st ox oy).count E =
      (elemsAt st ((-oy) / st.height, (-ox) / st.width)).count E +
      (elemsAt st ((-oy) / st.height, (-ox) / st.width + 1)).count E +
      (elemsAt st ((-oy) / st.height + 1, (-ox) / st.width)).count E +
      (elemsAt st ((-oy) / st.height + 1, (-ox) / st.width + 1)).count E := by
  unfold forEachElementB
  rw [List.count_flatMap]
  have hpt : ∀ s ∈ intRange
      (min (min (getBucket st ((-oy) / st.height, (-ox) / st.width)).minS
                (getBucket st ((-oy) / st.height, (-ox) / st.width + 1)).minS)
           (min (getBucket st ((-oy) / st.height + 1, (-ox) / st.width)).minS
                (getBucket st ((-oy) / st.height + 1, (-ox) / st.width + 1)).minS))
      (max (max (getBucket st ((-oy) / st.height, (-ox) / st.width)).maxS
                (getBucket st ((-oy) / st.height, (-ox) / st.width + 1)).maxS)
           (max (getBucket st ((-oy) / st.height + 1, (-ox) / st.width)).maxS
                (getBucket st ((-oy) / st.height + 1, (-ox) / st.width + 1)).maxS)),
      (List.count E ∘ fun s =>
        (enumerateSectionB (getBucket st ((-oy) / st.height, (-ox) / st.width)) s ++
         enumerateSectionB (getBucket st ((-oy) / st.height, (-ox) / st.width + 1)) s ++
         enumerateSectionB (getBucket st ((-oy) / st.height + 1, (-ox) / st.width)) s ++
         enumerateSectionB (getBucket st ((-oy) / st.height + 1, (-ox) / st.width + 1)) s).filter
          (viewGuard st.width st.height ox oy)) s =
      (fun s => if E.p2 = s then
        (elemsAt st ((-oy) / st.height, (-ox) / st.width)).count E +
        (elemsAt st ((-oy) / st.height, (-ox) / st.width + 1)).count E +
        (elemsAt st ((-oy) / st.height + 1, (-ox) / st.width)).count E +
        (elemsAt st ((-oy) / st.height + 1, (-ox) / st.width + 1)).count E
        else 0) s := by
    intro s _
    simp only [Function.comp]
    rw [count_filter_ite, if_pos hg, List.count_append, List.count_append,
      List.count_append, count_enumSec, count_enumSec, count_enumSec, count_enumSec]
    by_cases h : E.p2 = s <;> simp [h, elemsAt]
  rw [List.map_congr_left hpt, sum_map_ite_mem _ (intRange_nodup _ _)]
  by_cases hC : (elemsAt st ((-oy) / st.height, (-ox) / st.width)).count E +
      (elemsAt st ((-oy) / st.height, (-ox) / st.width + 1)).count E +
      (elemsAt st ((-oy) / st.height + 1, (-ox) / st.width)).count E +
      (elemsAt st ((-oy) / st.height + 1, (-ox) / st.width + 1)).count E = 0
  · rw [hC]
    simp
  · have hmem : E.p2 ∈ intRange
        (min (min (getBucket st ((-oy) / st.height, (-ox) / st.width)).minS
                  (getBucket st ((-oy) / st.height, (-ox) / st.width + 1)).minS)
             (min (getBucket st ((-oy) / st.height + 1, (-ox) / st.width)).minS
                  (getBucket st ((-oy) / st.height + 1, (-ox) / st.width + 1)).minS))
        (max (max (getBucket st ((-oy) / st.height, (-ox) / st.width)).maxS
                  (getBucket st ((-oy) / st.height, (-ox) / st.width + 1)).maxS)
             (max (getBucket st ((-oy) / st.height + 1, (-ox) / st.width)).maxS
                  (getBucket st ((-oy) / st.height + 1, (-ox) / st.width + 1)).maxS)) := by
      rw [mem_intRange]
      have h4 : 0 < (elemsAt st ((-oy) / st.height, (-ox) / st.width)).count E ∨
          0 < (elemsAt st ((-oy) / st.height, (-ox) / st.width + 1)).count E ∨
          0 < (elemsAt st ((-oy) / st.height + 1, (-ox) / st.width)).count E ∨
          0 < (elemsAt st ((-oy) / st.height + 1, (-ox) / st.width + 1)).count E := by
        omega
      rcases h4 with h4 | h4 | h4 | h4 <;>
        · have hEm := List.count_pos_iff.mp h4
          have hb := hInv _ E hEm
          constructor <;> omega
    rw [if_pos hmem]

/-- For an element no larger than a bucket, the `addToBuckets` keys are
exactly the bucket cells overlapped by its closed box. -/
theorem mem_keysOf_iff_overlaps (W H : Int) (E : BElem) (r c : Int)
    (hW : 0 < W) (hH : 0 < H) (h0w : 0 ≤ E.width) (h0h : 0 ≤ E.height)
    (hw : E.width ≤ W) (hh : E.height ≤ H) :
    (r, c) ∈ keysOf W H E ↔ overlapsCell W H (r, c) E = true := by
  rw [keysOf, mem_addKeys]
  have hbj : E.p0 / W ≤ (E.p0 + E.width) / W := Int.ediv_le_ediv hW (by omega)
  have hbj1 : (E.p0 + E.width) / W ≤ E.p0 / W + 1 := by
    have hle : (E.p0 + E.width) / W ≤ (E.p0 + W) / W := Int.ediv_le_ediv hW (by omega)
    rw [ediv_add_one E.p0 W hW] at hle
    exact hle
  have hbi : E.p1 / H ≤ (E.p1 + E.height) / H := Int.ediv_le_ediv hH (by omega)
  have hbi1 : (E.p1 + E.height) / H ≤ E.p1 / H + 1 := by
    have hle : (E.p1 + E.height) / H ≤ (E.p1 + H) / H := Int.ediv_le_ediv hH (by omega)
    rw [ediv_add_one E.p1 H hH] at hle
    exact hle
  have hc1 : c ≤ (E.p0 + E.width) / W ↔ c * W ≤ E.p0 + E.width :=
    Int.le_ediv_iff_mul_le hW
  have hc2 : E.p0 / W < c + 1 ↔ E.p0 < (c + 1) * W := Int.ediv_lt_iff_lt_mul hW
  have hr1 : r ≤ (E.p1 + E.height) / H ↔ r * H ≤ E.p1 + E.height :=
    Int.le_ediv_iff_mul_le hH
  have hr2 : E.p1 / H < r + 1 ↔ E.p1 < (r + 1) * H := Int.ediv_lt_iff_lt_mul hH
  simp only [overlapsCell, Bool.and_eq_true, decide_eq_true_eq]
  constructor
  · rintro ⟨hrow, hcol⟩
    have hrr : E.p1 / H ≤ r ∧ r ≤ (E.p1 + E.height) / H := by omega
    have hcc : E.p0 / W ≤ c ∧ c ≤ (E.p0 + E.width) / W := by omega
    exact ⟨⟨⟨hc1.mp hcc.2, hc2.mp (by omega)⟩, hr1.mp hrr.2⟩, hr2.mp (by omega)⟩
  · rintro ⟨⟨⟨hx1, hx2⟩, hx3⟩, hx4⟩
    have hcc : E.p0 / W ≤ c ∧ c ≤ (E.p0 + E.width) / W := ⟨by omega, hc1.mpr hx1⟩
    have hrr : E.p1 / H ≤ r ∧ r ≤ (E.p1 + E.height) / H := ⟨by omega, hr1.mpr hx3⟩
    constructor <;> omega

/-- Filter length over a four-element list as a sum of indicators. -/
theorem length_filter_four {α : Type} (p : α → Bool) (a b c d : α) :
    (List.filter p [a, b, c, d]).length =
      (if p a = true then 1 else 0) + (if p b = true then 1 else 0) +
      (if p c = true then 1 else 0) + (if p d = true then 1 else 0) := by
  by_cases pa : p a = true <;> by_cases pb : p b = true <;>
    by_cases pc : p c = true <;> by_cases pd : p d = true <;>
    simp [List.filter, pa, pb, pc, pd]

/-- C10 (amended): within a single `forEachElement` call, for an element no
larger than a bucket on both axes that was placed once and intersects the
viewport, the action is invoked exactly `n` times, where `n` is the number of
the four queried buckets its projected box overlaps -- so elements spanning a
bucket boundary are emitted more than once.  (The counterexample shows the
size bound is necessary.) -/
theorem forEachElement_count_eq_overlapped_queried (W H ox oy : Int) (L : List BElem) (E : BElem)
    (hW : 0 < W) (hH : 0 < H) (h0w : 0 ≤ E.width) (h0h : 0 ≤ E.height)
    (hw : E.width ≤ W) (hh : E.height ≤ H) (hone : L.count E = 1)
    (hg : viewGuard W H ox oy E = true) :
    (forEachElementB (L.foldl placeElem (emptyBuckets W H)) ox oy).count E =
      ((queriedKeys W H ox oy).filter (fun key => overlapsCell W H key E)).length := by
  have hWw : (L.foldl placeElem (emptyBuckets W H)).width = W :=
    (foldPlace_width L (emptyBuckets W H)).1
  have hHh : (L.foldl placeElem (emptyBuckets W H)).height = H :=
    (foldPlace_width L (emptyBuckets W H)).2
  rw [count_forEach _ ox oy E (bucketInv_foldPlace L _ (bucketInv_empty W H))
    (by rwa [hWw, hHh]), hWw, hHh]
  rw [count_elemsAt_foldPlace W H L E _ _ rfl rfl,
    count_elemsAt_foldPlace W H L E _ _ rfl rfl,
    count_elemsAt_foldPlace W H L E _ _ rfl rfl,
    count_elemsAt_foldPlace W H L E _ _ rfl rfl, hone]
  have hbase : ∀ key : Int × Int, (elemsAt (emptyBuckets W H) key).count E = 0 := by
    intro key
    simp [elemsAt, getBucket, emptyBuckets, BucketB.empty]
  rw [hbase, hbase, hbase, hbase]
  rw [show queriedKeys W H ox oy =
    [((-oy) / H, (-ox) / W), ((-oy) / H, (-ox) / W + 1),
     ((-oy) / H + 1, (-ox) / W), ((-oy) / H + 1, (-ox) / W + 1)] from rfl]
  rw [length_filter_four]
  have hiff : ∀ r c : Int,
      (if (r, c) ∈ keysOf W H E then 1 else 0) =
      (if overlapsCell W H (r, c) E = true then 1 else 0) := by
    intro r c
    by_cases h : (r, c) ∈ keysOf W H E
    · rw [if_pos h, if_pos ((mem_keysOf_iff_overlaps W H E r c hW hH h0w h0h hw hh).mp h)]
    · rw [if_neg h, if_neg (fun hc => h
        ((mem_keysOf_iff_overlaps W H E r c hW hH h0w h0h hw hh).mpr hc))]
  simp only [zero_add]
  rw [hiff, hiff, hiff, hiff]

/-- Witness for the amended C1 theorem: the small element placed inside the
viewport is enumerated, and indeed passes the visibility test. -/
theorem forEachElement_iff_intersects_viewport_witness :
    smallElem ∈ forEachElementB ([smallElem].foldl placeElem (emptyBuckets 100 100)) 0 0 ↔
      viewGuard 100 100 0 0 smallElem = true :=
  forEachElement_iff_intersects_viewport 100 100 0 0 [smallElem] smallElem
    (by decide) (by decide) (by decide) (by decide) (by decide) (by decide)
    (List.mem_singleton.mpr rfl)

/-- Witness for the amended C10 theorem: the small element is emitted exactly
once -- it overlaps exactly one of the four queried buckets. -/
theorem forEachElement_count_eq_overlapped_queried_witness :
    (forEachElementB ([smallElem].foldl placeElem (emptyBuckets 100 100)) 0 0).count
        smallElem =
      ((queriedKeys 100 100 0 0).filter
        (fun key => overlapsCell 100 100 key smallElem)).length :=
  forEachElement_count_eq_overlapped_queried 100 100 0 0 [smallElem] smallElem
    (by decide) (by decide) (by decide) (by decide) (by decide) (by decide)
    (by decide) (by decide)

end Canvace
